import Mathlib

/-!
Shallow embedding of the DNS/address reconciliation core of
`portal/models.py` (hamwan-portal): the `Host`, `IPAddress` and `Subnet`
models, the DNS record synchronization (`_generate_ptr`, `_add_dns`,
`_remove_dns`, the `save` overrides and the `pre_delete` hook), and
`Subnet.clean`.

The Django ORM state (hosts table, ipaddress table, DNS `Domain` and
`Record` tables) is modelled as an explicit `DB` structure; every
operation is a function `... → DB → Except Err DB`, and
`transaction.atomic` is modelled by a wrapper that commits the final
state on success and returns the unchanged initial state on error.
-/

/-- ASCII lower-casing of one character. Models Python `str.lower()` and
Django `__iexact` comparisons as used on hostnames in the source. -/
def lc (c : Char) : Char :=
  match c with
  | 'A' => 'a' | 'B' => 'b' | 'C' => 'c' | 'D' => 'd' | 'E' => 'e' | 'F' => 'f'
  | 'G' => 'g' | 'H' => 'h' | 'I' => 'i' | 'J' => 'j' | 'K' => 'k' | 'L' => 'l'
  | 'M' => 'm' | 'N' => 'n' | 'O' => 'o' | 'P' => 'p' | 'Q' => 'q' | 'R' => 'r'
  | 'S' => 's' | 'T' => 't' | 'U' => 'u' | 'V' => 'v' | 'W' => 'w' | 'X' => 'x'
  | 'Y' => 'y' | 'Z' => 'z'
  | other => other

/-- Lower-cased string: models `s.lower()` in Python. -/
def slower (s : String) : String := ⟨s.data.map lc⟩

/-- IP address values (field `IPAddress.ip`). IPv4 carries its four
octets; IPv6 carries its 32 exploded nibbles (most significant first),
matching `ipaddress.IPv6Address.exploded` with the colons removed. -/
inductive IPAddr
  | v4 (a b c d : Nat)
  | v6 (nibs : List Nat)
deriving DecidableEq, Repr

/-- Lower-case hexadecimal digit for one nibble. -/
def hexChar (n : Nat) : Char :=
  match n with
  | 0 => '0' | 1 => '1' | 2 => '2' | 3 => '3' | 4 => '4' | 5 => '5'
  | 6 => '6' | 7 => '7' | 8 => '8' | 9 => '9' | 10 => 'a' | 11 => 'b'
  | 12 => 'c' | 13 => 'd' | 14 => 'e' | 15 => 'f'
  | _ => '0'

/-- Groups of four characters, for rendering the exploded IPv6 form. -/
def chunk4 : List Char → List String
  | a :: b :: c :: d :: t => String.mk [a, b, c, d] :: chunk4 t
  | [] => []
  | t => [String.mk t]

/-- Textual form of an address, as stored in DNS record `content`
(IPv4 dotted quad; IPv6 modelled as the exploded lower-case form). -/
def IPAddr.str : IPAddr → String
  | .v4 a b c d =>
      toString a ++ "." ++ toString b ++ "." ++ toString c ++ "." ++ toString d
  | .v6 nibs => String.intercalate ":" (chunk4 (nibs.map hexChar))

/-- IP protocol version, models `ip_address(self.ip).version`. -/
def IPAddr.version : IPAddr → Nat
  | .v4 .. => 4
  | .v6 _ => 6

/-- Row of the DNS `Record` table (`dns.models.Record`): zone name,
record name, record type, content and the authoritative flag. -/
structure Record where
  domain : String
  name : String
  type : String
  content : String
  auth : Bool
deriving DecidableEq, Repr

/-- Stored row of the `portal_host` table. -/
structure HostRow where
  pk : Nat
  name : String
deriving DecidableEq, Repr

/-- Stored row of the `portal_ipaddress` table. -/
structure IPRow where
  pk : Nat
  host : Nat
  interface : Option String
  ip : IPAddr
  auto_dns : Bool
  primary : Bool
deriving DecidableEq, Repr

/-- In-memory `Host` model instance (`pk = none` before first save). -/
structure HostObj where
  pk : Option Nat
  name : String
deriving DecidableEq, Repr

/-- In-memory `IPAddress` model instance (`pk = none` before first save). -/
structure IPObj where
  pk : Option Nat
  host : Nat
  interface : Option String
  ip : IPAddr
  auto_dns : Bool
  primary : Bool
deriving DecidableEq, Repr

/-- Model instance corresponding to a stored row, as produced by a
Django queryset. -/
def IPRow.obj (r : IPRow) : IPObj :=
  { pk := some r.pk, host := r.host, interface := r.interface, ip := r.ip
    auto_dns := r.auto_dns, primary := r.primary }

/-- Combined database state: hosts, address assignments, DNS zones
(`Domain` rows, by name) and DNS records. -/
structure DB where
  hosts : List HostRow
  ips : List IPRow
  domains : List String
  records : List Record
deriving DecidableEq, Repr

/-- Failures surfaced by the ORM layer: `DoesNotExist` on lookups and
`IntegrityError` on unique-constraint violations. -/
inductive Err
  | ipDoesNotExist
  | hostDoesNotExist
  | rootDomainMissing
  | duplicateIp
  | duplicateHostName
deriving DecidableEq, Repr

/-- Models `Host.objects.get(pk=...)`. -/
def getHost (db : DB) (pk : Nat) : Option HostRow :=
  db.hosts.find? (fun h => h.pk == pk)

/-- Models `IPAddress.objects.get(pk=...)`. -/
def getIp (db : DB) (pk : Nat) : Option IPRow :=
  db.ips.find? (fun r => r.pk == pk)

/-- Python truthiness of the optional `interface` field
(`if self.interface:` treats both `None` and `""` as false). -/
def ifaceVal : Option String → Option String
  | some s => if s = "" then none else some s
  | none => none

/-- Models `Host.fqdn`: `f'{self.name}.{ROOT_DOMAIN}'`. -/
def hostFqdn (root name : String) : String := name ++ "." ++ root

/-- Models `IPAddress.fqdn`: interface-qualified when the `interface`
field is truthy, the bare host FQDN otherwise. -/
def ipFqdn (root hostName : String) (iface : Option String) : String :=
  match ifaceVal iface with
  | some s => s ++ "." ++ hostName ++ "." ++ root
  | none => hostName ++ "." ++ root

/-- Models `IPAddress._generate_ptr`: the reverse-DNS name of the
address, at the delegation boundary when `domain = true`. -/
def IPAddress_generate_ptr (ip : IPAddr) (domain : Bool) : String :=
  match ip with
  | .v6 nibs =>
      let rev := (nibs.map hexChar).reverse
      let rev2 := if domain then rev.drop 20 else rev
      String.intercalate "." (rev2.map String.singleton) ++ ".ip6.arpa"
  | .v4 a b c d =>
      let rev := [toString a, toString b, toString c, toString d].reverse
      let rev2 := if domain then rev.drop 1 else rev
      String.intercalate "." rev2 ++ ".in-addr.arpa"

/-- Models `zone.split('.', 1)[1]`: everything after the first dot. -/
def afterFirstDot : List Char → List Char
  | [] => []
  | c :: t => if c = '.' then t else afterFirstDot t

/-- Strips the leading label from a zone name (the widening step of the
PTR-zone fallback in `_add_dns`). -/
def stripLabel (z : String) : String := ⟨afterFirstDot z.data⟩

/-- Models `Record.objects.get_or_create` keyed on (domain, name, type,
content), as used for the forward A/AAAA record: a fresh authoritative
record is appended when no exact match exists; `new_a.save()` on a
fetched record changes nothing. -/
def getOrCreateFwd (dom nm ty ct : String) (recs : List Record) : List Record :=
  match recs.find? (fun r =>
      r.type == ty && r.name == nm && r.domain == dom && r.content == ct) with
  | some _ => recs
  | none => recs ++ [{ domain := dom, name := nm, type := ty, content := ct, auth := true }]

/-- Replaces the content of the first record matching the predicate. -/
def patchFirst (p : Record → Bool) (ct : String) : List Record → List Record
  | [] => []
  | r :: t => if p r then { r with content := ct } :: t else r :: patchFirst p ct t

/-- Models `get_or_create` keyed on (domain, name, type) followed by the
`content` overwrite-and-save, as used for PTR and CNAME records. -/
def getOrCreatePatch (dom nm ty ct : String) (recs : List Record) : List Record :=
  if recs.any (fun r => r.type == ty && r.name == nm && r.domain == dom) then
    patchFirst (fun r => r.type == ty && r.name == nm && r.domain == dom) ct recs
  else recs ++ [{ domain := dom, name := nm, type := ty, content := ct, auth := true }]

/-- Predicate for the records deleted by the first filter of
`_remove_dns`: A/AAAA at the old FQDN (name compared case-insensitively)
whose content equals the old address exactly. -/
def fwdDelPred (fq ipstr : String) (r : Record) : Bool :=
  slower r.name == slower fq && (r.type == "A" || r.type == "AAAA") && r.content == ipstr

/-- Predicate for the CNAME deleted by `_remove_dns` when `primary` was
set: name is the host FQDN and content the old assignment FQDN, both
case-insensitive. -/
def cnameDelPred (hostFq fq : String) (r : Record) : Bool :=
  slower r.name == slower hostFq && r.type == "CNAME" && slower r.content == slower fq

/-- Predicate for the PTR deleted by `_remove_dns`: the name is matched
exactly (`name=`), the content case-insensitively (`content__iexact`). -/
def ptrDelPred (ptrName fq : String) (r : Record) : Bool :=
  r.name == ptrName && r.type == "PTR" && slower r.content == slower fq

/-- Models `IPAddress._remove_dns` (models.py lines 224-243): a no-op
when `pk` is `None`; otherwise re-reads the stored row and deletes the
old forward record, the CNAME when `primary` was set, and the PTR. -/
def IPAddress_remove_dns (root : String) (self : IPObj) (db : DB) : Except Err DB :=
  match self.pk with
  | none => .ok db
  | some pk =>
    match getIp db pk with
    | none => .error .ipDoesNotExist
    | some orig =>
      match getHost db orig.host with
      | none => .error .hostDoesNotExist
      | some h =>
        let fq := ipFqdn root h.name orig.interface
        let recs1 := db.records.filter (fun r => !fwdDelPred fq orig.ip.str r)
        let recs2 :=
          if orig.primary then
            recs1.filter (fun r => !cnameDelPred (hostFqdn root h.name) fq r)
          else recs1
        let recs3 := recs2.filter
          (fun r => !ptrDelPred (IPAddress_generate_ptr orig.ip false) fq r)
        .ok { db with records := recs3 }

/-- Models the PTR-zone resolution of `_add_dns` (lines 191-201): look
up the boundary-form reverse zone; on `Domain.DoesNotExist` retry once
with one more leading label stripped; give up with `none` after that. -/
def resolvePtrZone (db : DB) (zone : String) : Option String :=
  if db.domains.contains zone then some zone
  else
    let z2 := stripLabel zone
    if db.domains.contains z2 then some z2 else none

/-- Record type of the forward record: AAAA for IPv6, A for IPv4. -/
def fwdType (ip : IPAddr) : String :=
  match ip with
  | .v6 _ => "AAAA"
  | .v4 .. => "A"

/-- Models the head of `IPAddress._add_dns` (lines 175-178): when the
assignment already exists under a different computed FQDN
(case-insensitively), first remove its records. -/
def addDnsOldNameRemoval (root : String) (self : IPObj) (db : DB) : Except Err DB :=
  match self.pk with
  | none => .ok db
  | some pk =>
    match getIp db pk with
    | none => .error .ipDoesNotExist
    | some orig =>
      match getHost db orig.host with
      | none => .error .hostDoesNotExist
      | some oh =>
        match getHost db self.host with
        | none => .error .hostDoesNotExist
        | some h =>
          if slower (ipFqdn root oh.name orig.interface)
              == slower (ipFqdn root h.name self.interface) then .ok db
          else IPAddress_remove_dns root self db

/-- Models `IPAddress._add_dns` (lines 173-222): optional removal of the
records of the previously stored FQDN, then get-or-create of the forward
record in the root zone, the best-effort PTR, and the CNAME when
`primary` is set and an interface is present. -/
def IPAddress_add_dns (root : String) (self : IPObj) (db : DB) : Except Err DB :=
  match getHost db self.host with
  | none => .error .hostDoesNotExist
  | some h =>
    let fq := ipFqdn root h.name self.interface
    match addDnsOldNameRemoval root self db with
    | .error e => .error e
    | .ok db1 =>
      if db1.domains.contains root then
        let recs1 := getOrCreateFwd root (slower fq) (fwdType self.ip) self.ip.str db1.records
        let recs2 :=
          match resolvePtrZone db1 (IPAddress_generate_ptr self.ip true) with
          | some z =>
              getOrCreatePatch z (IPAddress_generate_ptr self.ip false) "PTR" (slower fq) recs1
          | none => recs1
        let recs3 :=
          if self.primary && (ifaceVal self.interface).isSome then
            getOrCreatePatch root (slower (hostFqdn root h.name)) "CNAME" (slower fq) recs2
          else recs2
        .ok { db1 with records := recs3 }
      else .error .rootDomainMissing

/-- Models the `pre_delete` receiver `remote_dns_hook` (lines 272-275):
DNS removal runs exactly when the instance's `auto_dns` flag is set. -/
def remote_dns_hook (root : String) (inst : IPObj) (db : DB) : Except Err DB :=
  if inst.auto_dns then IPAddress_remove_dns root inst db else .ok db

/-- Models `IPAddress.delete()`: the `pre_delete` signal fires, then the
row is removed from the table. -/
def IPAddress_delete (root : String) (self : IPObj) (db : DB) : Except Err DB :=
  match remote_dns_hook root self db with
  | .error e => .error e
  | .ok db1 => .ok { db1 with ips := db1.ips.filter (fun r => !(some r.pk == self.pk)) }

/-- Fresh primary key for an inserted `IPAddress` row. -/
def nextPk (db : DB) : Nat := db.ips.foldr (fun r m => max r.pk m) 0 + 1

/-- Fresh primary key for an inserted `Host` row. -/
def nextHostPk (db : DB) : Nat := db.hosts.foldr (fun h m => max h.pk m) 0 + 1

/-- Models `IPAddress.save` (lines 245-256), the body inside
`@transaction.atomic`: an existing row is deleted first ("consider
IPAddress immutable") and `pk` reset, `_add_dns` runs when `auto_dns`
is truthy, and the insert enforces the unique constraint on `ip`. -/
def IPAddress_save (root : String) (self : IPObj) (db : DB) : Except Err DB :=
  let step1 : Except Err (IPObj × DB) :=
    match self.pk with
    | some _ =>
      match IPAddress_delete root self db with
      | .error e => .error e
      | .ok db1 => .ok ({ self with pk := none }, db1)
    | none => .ok (self, db)
  match step1 with
  | .error e => .error e
  | .ok (s1, db1) =>
    let db2E := if s1.auto_dns then IPAddress_add_dns root s1 db1 else .ok db1
    match db2E with
    | .error e => .error e
    | .ok db2 =>
      if db2.ips.any (fun r => r.ip == s1.ip) then .error .duplicateIp
      else
        .ok { db2 with
              ips := db2.ips ++ [{ pk := nextPk db2, host := s1.host,
                                   interface := s1.interface, ip := s1.ip,
                                   auto_dns := s1.auto_dns, primary := s1.primary }] }

/-- Models `transaction.atomic`: on success the new state is committed;
on error nothing is, and the observable state is the initial one. -/
def transaction_atomic (f : DB → Except Err DB) (db : DB) : DB × Option Err :=
  match f db with
  | .ok d => (d, none)
  | .error e => (db, some e)

/-- The committed effect of one `IPAddress.save()` call. -/
def IPAddress_save_atomic (root : String) (self : IPObj) (db : DB) : DB × Option Err :=
  transaction_atomic (IPAddress_save root self) db

/-- Phase 1 of `Host.save` on a name change (lines 129-131): for every
owned assignment with a truthy `auto_dns`, remove its DNS records. -/
def hostRenameRemovePhase (root : String) : List IPRow → DB → Except Err DB
  | [], db => .ok db
  | r :: t, db =>
    if r.auto_dns then
      match IPAddress_remove_dns root r.obj db with
      | .error e => .error e
      | .ok d => hostRenameRemovePhase root t d
    else hostRenameRemovePhase root t db

/-- Phase 3 of `Host.save` on a name change (lines 137-139): re-save
every owned assignment (running the full create path for each). -/
def hostRenameSavePhase (root : String) : List IPRow → DB → Except Err DB
  | [], db => .ok db
  | r :: t, db =>
    match IPAddress_save root r.obj db with
    | .error e => .error e
    | .ok d => hostRenameSavePhase root t d

/-- Models `Host.save` (lines 125-139): on a name change, remove the DNS
records of every owned `auto_dns` assignment, persist the new name
(unique constraint on `name`), then re-save every owned assignment. -/
def Host_save (root : String) (self : HostObj) (db : DB) : Except Err DB :=
  match self.pk with
  | none =>
    if db.hosts.any (fun h => h.name == self.name) then .error .duplicateHostName
    else .ok { db with hosts := db.hosts ++ [{ pk := nextHostPk db, name := self.name }] }
  | some pk =>
    match getHost db pk with
    | none => .error .hostDoesNotExist
    | some orig =>
      let changed := !(orig.name == "") && !(orig.name == self.name)
      let db1E :=
        if changed then hostRenameRemovePhase root (db.ips.filter (fun r => r.host == pk)) db
        else .ok db
      match db1E with
      | .error e => .error e
      | .ok db1 =>
        if db1.hosts.any (fun h => !(h.pk == pk) && h.name == self.name) then
          .error .duplicateHostName
        else
          let db2 := { db1 with
            hosts := db1.hosts.map (fun h => if h.pk == pk then { h with name := self.name } else h) }
          if changed then hostRenameSavePhase root (db2.ips.filter (fun r => r.host == pk)) db2
          else .ok db2

/-- Cascade step of `Host.delete()`: each owned assignment receives the
`pre_delete` signal and its row is removed. -/
def cascadeDelete (root : String) : List IPRow → DB → Except Err DB
  | [], db => .ok db
  | r :: t, db =>
    match remote_dns_hook root r.obj db with
    | .error e => .error e
    | .ok d => cascadeDelete root t { d with ips := d.ips.filter (fun x => !(x.pk == r.pk)) }

/-- Models `Host.delete()`: cascade deletion of owned assignments
(`on_delete=models.CASCADE`), then removal of the host row. -/
def Host_delete (root : String) (self : HostObj) (db : DB) : Except Err DB :=
  match self.pk with
  | none => .error .hostDoesNotExist
  | some pk =>
    match cascadeDelete root (db.ips.filter (fun r => r.host == pk)) db with
    | .error e => .error e
    | .ok d => .ok { d with hosts := d.hosts.filter (fun h => !(h.pk == pk)) }

/-- Modelled from the spec: `reverseZoneName(address, atDomainBoundary)`
stated in the spec's own words — IPv4: reverse the four octets, dropping
the lowest octet at the boundary; IPv6: the exploded nibbles reversed and
dot-joined, dropping the first 20 labels at the boundary. Used only to
compare against `IPAddress_generate_ptr`. -/
def reverseZoneNameSpec (ip : IPAddr) (atDomainBoundary : Bool) : String :=
  match ip with
  | .v4 w x y z =>
      if atDomainBoundary then
        toString y ++ "." ++ toString x ++ "." ++ toString w ++ ".in-addr.arpa"
      else
        toString z ++ "." ++ toString y ++ "." ++ toString x ++ "." ++ toString w
          ++ ".in-addr.arpa"
  | .v6 nibs =>
      let labels := nibs.reverse.map (fun n => String.singleton (hexChar n))
      let labels2 := if atDomainBoundary then labels.drop 20 else labels
      String.intercalate "." labels2 ++ ".ip6.arpa"

/-- Splits a character list at every occurrence of the separator,
modelling Python `str.split(sep)` (so the empty input yields one empty
segment). -/
def splitCh (sep : Char) : List Char → List (List Char)
  | [] => [[]]
  | c :: t =>
    match splitCh sep t with
    | [] => [[c]]
    | h :: r => if c = sep then [] :: h :: r else (c :: h) :: r

/-- Numeric value of a decimal digit character. -/
def digitVal (c : Char) : Nat := c.toNat - 48

/-- Value of a decimal digit string. -/
def digitsToNat (l : List Char) : Nat := l.foldl (fun acc c => acc * 10 + digitVal c) 0

/-- Parses one dotted-quad octet: decimal digits only, no leading zero,
value at most 255 (the `ipaddress` module's `_parse_octet` rules). -/
def parseOctet (l : List Char) : Option Nat :=
  if l.isEmpty then none
  else if !(l.all (fun c => c.isDigit)) then none
  else
    match l with
    | '0' :: _ :: _ => none
    | _ => if digitsToNat l ≤ 255 then some (digitsToNat l) else none

/-- Parses a dotted-quad IPv4 address to its 32-bit value. -/
def parseV4 (l : List Char) : Option Nat :=
  match splitCh '.' l with
  | [a, b, c, d] =>
    match parseOctet a, parseOctet b, parseOctet c, parseOctet d with
    | some w, some x, some y, some z => some (((w * 256 + x) * 256 + y) * 256 + z)
    | _, _, _, _ => none
  | _ => none

/-- Numeric value of a hexadecimal digit character, either case. -/
def hexDigitVal (c : Char) : Option Nat :=
  match c with
  | 'f' | 'F' => some 15
  | 'e' | 'E' => some 14
  | 'd' | 'D' => some 13
  | 'c' | 'C' => some 12
  | 'b' | 'B' => some 11
  | 'a' | 'A' => some 10
  | '9' => some 9
  | '8' => some 8
  | '7' => some 7
  | '6' => some 6
  | '5' => some 5
  | '4' => some 4
  | '3' => some 3
  | '2' => some 2
  | '1' => some 1
  | '0' => some 0
  | _ => none

/-- Values of a string of hexadecimal digits, or `none` on a bad digit. -/
def hexDigits : List Char → Option (List Nat)
  | [] => some []
  | c :: t =>
    match hexDigitVal c, hexDigits t with
    | some d, some ds => some (d :: ds)
    | _, _ => none

/-- Parses one IPv6 hextet: one to four hexadecimal digits (the
`ipaddress` module's `_parse_hextet` rules; leading zeros allowed). -/
def parseHextet (l : List Char) : Option Nat :=
  match hexDigits l with
  | some ds =>
    match ds with
    | [] => none
    | [a] => some a
    | [a, b] => some (a * 16 + b)
    | [a, b, c] => some ((a * 16 + b) * 16 + c)
    | [a, b, c, d] => some (((a * 16 + b) * 16 + c) * 16 + d)
    | _ => none
  | none => none

/-- Splits a character list at the first occurrence of a double colon,
returning the pieces before and after it. -/
def findDoubleColon : List Char → Option (List Char × List Char)
  | [] => none
  | [_] => none
  | c :: d :: t =>
    if c = ':' ∧ d = ':' then some ([], t)
    else (findDoubleColon (d :: t)).map (fun p => (c :: p.1, p.2))

/-- Parses every part as a hextet. -/
def parseHextets : List (List Char) → Option (List Nat)
  | [] => some []
  | p :: t =>
    match parseHextet p, parseHextets t with
    | some h, some hs => some (h :: hs)
    | _, _ => none

/-- Parses a trailing run of parts as hextets, where the final part may
be an embedded dotted-quad IPv4 address contributing two hextets. -/
def parseTailHextets : List (List Char) → Option (List Nat)
  | [] => some []
  | [p] =>
    if p.contains '.' then
      match parseV4 p with
      | some v => some [v / 65536, v % 65536]
      | none => none
    else
      match parseHextet p with
      | some h => some [h]
      | none => none
  | p :: t =>
    match parseHextet p, parseTailHextets t with
    | some h, some hs => some (h :: hs)
    | _, _ => none

/-- 128-bit value of a list of hextets, most significant first. -/
def combine16 (gs : List Nat) : Nat := gs.foldl (fun acc g => acc * 65536 + g) 0

/-- The compressed form: hextet parts before and after the `::`, which
stands for a run of zero hextets covering at least one. -/
def v6OfParts (hiParts loParts : List (List Char)) : Option Nat :=
  if hiParts.contains [] || loParts.contains [] then none
  else
    match parseHextets hiParts, parseTailHextets loParts with
    | some hi, some lo =>
      if hi.length + lo.length ≤ 7 then
        some (combine16 (hi ++ List.replicate (8 - hi.length - lo.length) 0 ++ lo))
      else none
    | _, _ => none

/-- The uncompressed form: exactly eight hextets. -/
def v6NoCompress (parts : List (List Char)) : Option Nat :=
  if parts.contains [] then none
  else
    match parseTailHextets parts with
    | some gs => if gs.length = 8 then some (combine16 gs) else none
    | none => none

/-- Parses an IPv6 address text to its 128-bit value: colon-separated
hextets, at most one `::` standing for a run of zero hextets (and
covering at least one), and an optional embedded dotted-quad in the
last position (the `ipaddress` module's `_ip_int_from_string` rules;
zone identifiers are not modelled). -/
def parseV6 (l : List Char) : Option Nat :=
  match findDoubleColon l with
  | some (pre, post) =>
      v6OfParts (if pre.isEmpty then [] else splitCh ':' pre)
                (if post.isEmpty then [] else splitCh ':' post)
  | none => v6NoCompress (splitCh ':' l)

/-- Masks the host bits of a `w`-bit address value to zero for the
given network size (strict=false semantics). -/
def maskAddr (w v n : Nat) : Nat := v / 2 ^ (w - n) * 2 ^ (w - n)

/-- Prefix length of a contiguous netmask value for width `w`, `none`
when the value is not of netmask form. -/
def plenFromMask (w m : Nat) : Option Nat :=
  (List.range (w + 1)).find? (fun p => m == 2 ^ w - 2 ^ (w - p))

/-- Parses a prefix length given as decimal digits, at most `w`
(leading zeros allowed, as in `_prefix_from_prefix_string`). -/
def parsePlenDigits (w : Nat) (l : List Char) : Option Nat :=
  if l.isEmpty then none
  else if !(l.all (fun c => c.isDigit)) then none
  else if digitsToNat l ≤ w then some (digitsToNat l) else none

/-- Parses the part after the slash: decimal digits as a prefix length,
otherwise an address-form netmask or hostmask (the `ipaddress` module's
`_make_netmask` rules). -/
def parseMask (w : Nat) (parseAddr : List Char → Option Nat) (l : List Char) : Option Nat :=
  if !l.isEmpty && l.all (fun c => c.isDigit) then parsePlenDigits w l
  else
    match parseAddr l with
    | some m =>
      match plenFromMask w m with
      | some p => some p
      | none => plenFromMask w (2 ^ w - 1 - m)
    | none => none

/-- A parsed network: version, masked address value, prefix length. -/
inductive IPNet
  | n4 (addr plen : Nat)
  | n6 (addr plen : Nat)
deriving DecidableEq, Repr

/-- Modelled from the spec: `parseNetwork(text) -> Network |
InvalidNetworkError` — the call `ipaddress.ip_network(str(...),
strict=False)` in `Subnet.clean` is Python standard-library code
external to this repository. Modelled here for both address families:
IPv4 dotted-quad and IPv6 hextet texts (with `::` compression and an
embedded dotted-quad), bare or with `/prefix` where the prefix is a
decimal length or an address-form netmask or hostmask; host bits are
silently masked rather than rejected. -/
def ip_network_strictFalse (s : String) : Option IPNet :=
  match splitCh '/' s.data with
  | [a] =>
    match parseV4 a with
    | some v => some (.n4 v 32)
    | none =>
      match parseV6 a with
      | some v => some (.n6 v 128)
      | none => none
  | [a, p] =>
    match parseV4 a with
    | some v =>
      match parseMask 32 parseV4 p with
      | some n => some (.n4 (maskAddr 32 v n) n)
      | none => none
    | none =>
      match parseV6 a with
      | some v =>
        match parseMask 128 parseV6 p with
        | some n => some (.n6 (maskAddr 128 v n) n)
        | none => none
      | none => none
  | _ => none

/-- Canonical dotted-quad rendering of a 32-bit address value. -/
def renderV4 (v : Nat) : String :=
  toString (v / 16777216 % 256) ++ "." ++ toString (v / 65536 % 256) ++ "."
    ++ toString (v / 256 % 256) ++ "." ++ toString (v % 256)

/-- Four lower-case hexadecimal digits of one hextet value. -/
def hexStr4 (g : Nat) : List Char :=
  [hexChar (g / 4096 % 16), hexChar (g / 256 % 16), hexChar (g / 16 % 16), hexChar (g % 16)]

/-- Rendering of a 128-bit address value as eight colon-separated
four-digit hextets. The canonical text is modelled as the fully
exploded form; CPython additionally compresses the longest zero run to
`::`, which changes only the spelling of the emitted text, not the
network value it denotes — either spelling reparses to the same
network, which is what the idempotence claim turns on. -/
def renderV6 (v : Nat) : String :=
  ⟨hexStr4 (v / 5192296858534827628530496329220096 % 65536) ++ ':' ::
   (hexStr4 (v / 79228162514264337593543950336 % 65536) ++ ':' ::
   (hexStr4 (v / 1208925819614629174706176 % 65536) ++ ':' ::
   (hexStr4 (v / 18446744073709551616 % 65536) ++ ':' ::
   (hexStr4 (v / 281474976710656 % 65536) ++ ':' ::
   (hexStr4 (v / 4294967296 % 65536) ++ ':' ::
   (hexStr4 (v / 65536 % 65536) ++ ':' :: hexStr4 (v % 65536)))))))⟩

/-- Canonical CIDR rendering of a network, modelling
`str(ip_network(...))`. -/
def netStr (net : IPNet) : String :=
  match net with
  | .n4 v n => renderV4 v ++ "/" ++ toString n
  | .n6 v n => renderV6 v ++ "/" ++ toString n

/-- Models `Subnet.clean` (lines 293-300): normalize the textual network
to its canonical masked form, or fail with a `ValidationError`. -/
def Subnet_clean (network : String) : Except String String :=
  match ip_network_strictFalse network with
  | some net => .ok (netStr net)
  | none => .error "Invalid network format."

/-- Union of the three `_remove_dns` delete filters for the stored
assignment `row` under host name `hname`: the A/AAAA at its FQDN with
its address, the CNAME at the host FQDN with its FQDN when `primary`,
and the PTR at its host-form reverse name with its FQDN. -/
def delPred (root hname : String) (row : IPRow) (r : Record) : Bool :=
  fwdDelPred (ipFqdn root hname row.interface) row.ip.str r
    || (row.primary &&
        cnameDelPred (hostFqdn root hname) (ipFqdn root hname row.interface) r)
    || ptrDelPred (IPAddress_generate_ptr row.ip false)
        (ipFqdn root hname row.interface) r

/-- String `s` equals, up to ASCII case, the host FQDN of `hname` or
the FQDN of one of the given assignments under `hname`. -/
def oldRefStr (root hname : String) (rows : List IPRow) (s : String) : Bool :=
  slower s == slower (hostFqdn root hname) ||
    rows.any (fun row => slower s == slower (ipFqdn root hname row.interface))

/-- Record `r` references a domain name derived from host name `hname`:
by its name, or — for the record types whose content is a domain name
(PTR, CNAME) — by its content. -/
def oldRef (root hname : String) (rows : List IPRow) (r : Record) : Bool :=
  oldRefStr root hname rows r.name ||
    ((r.type == "PTR" || r.type == "CNAME") && oldRefStr root hname rows r.content)

/-- The store holds a record with the given zone, name, type and
content. -/
def hasRec (dom nm ty ct : String) (recs : List Record) : Bool :=
  recs.any (fun r => r.domain == dom && r.name == nm && r.type == ty && r.content == ct)

/-- Record store after the `pre_delete` removal of assignment `row`
stored under host name `hname`. -/
def delRecs (root hname : String) (row : IPRow) (recs : List Record) : List Record :=
  recs.filter (fun r => !delPred root hname row r)

/-- The PTR-zone resolution of `_add_dns` as a function of the zone
list alone. -/
def resolveZoneDoms (doms : List String) (zone : String) : Option String :=
  if doms.contains zone then some zone
  else if doms.contains (stripLabel zone) then some (stripLabel zone) else none

/-- Forward-record step of `_add_dns` for assignment `t` under host
name `hname`. -/
def fwdStep (root hname : String) (t : IPRow) (recs : List Record) : List Record :=
  getOrCreateFwd root (slower (ipFqdn root hname t.interface)) (fwdType t.ip)
    t.ip.str recs

/-- Best-effort PTR step of `_add_dns` for assignment `t`. -/
def ptrStep (root hname : String) (t : IPRow) (doms : List String)
    (recs : List Record) : List Record :=
  match resolveZoneDoms doms (IPAddress_generate_ptr t.ip true) with
  | some z => getOrCreatePatch z (IPAddress_generate_ptr t.ip false) "PTR"
      (slower (ipFqdn root hname t.interface)) recs
  | none => recs

/-- Conditional CNAME step of `_add_dns` for assignment `t`. -/
def cnameStep (root hname : String) (t : IPRow) (recs : List Record) : List Record :=
  if t.primary && (ifaceVal t.interface).isSome then
    getOrCreatePatch root (slower (hostFqdn root hname)) "CNAME"
      (slower (ipFqdn root hname t.interface)) recs
  else recs

/-- Record store produced by the create path (`_add_dns` on a fresh
instance) of assignment `t` under host name `hname`. -/
def addRecs (root hname : String) (t : IPRow) (doms : List String)
    (recs : List Record) : List Record :=
  cnameStep root hname t (ptrStep root hname t doms (fwdStep root hname t recs))

/-- Some primary assignment with an interface among `all` has its CNAME
(host FQDN pointing at its interface FQDN) in the store. -/
def cnameOk (root hname : String) (all : List IPRow) (recs : List Record) : Prop :=
  ∃ t ∈ all, t.auto_dns = true ∧ t.primary = true ∧ (ifaceVal t.interface).isSome ∧
    hasRec root (slower (hostFqdn root hname)) "CNAME"
      (slower (ipFqdn root hname t.interface)) recs = true

/-- A record with name `nm`, type `ty` and content `ct` is untouched by
the delete filters and PTR patches of the re-save of every assignment
in `todo` under host name `hname`. -/
def presSafe (root hname : String) (todo : List IPRow) (nm ty ct : String) : Prop :=
  ((ty = "A" ∨ ty = "AAAA") ∧
    ∀ t ∈ todo, slower nm ≠ slower (ipFqdn root hname t.interface) ∨ ct ≠ t.ip.str) ∨
  (ty = "PTR" ∧ ∀ t ∈ todo, nm ≠ IPAddress_generate_ptr t.ip false)

/-- Host-rename scenario: one host (pk 1) named `old`, one owned
assignment (pk 10) for 10.0.0.5 with `auto_dns` set and no interface,
the root zone and the /24 reverse zone, and exactly the two DNS records
that the create path produces for the assignment. -/
def renameDb (root old : String) : DB :=
  { hosts := [{ pk := 1, name := old }]
    ips := [{ pk := 10, host := 1, interface := none, ip := .v4 10 0 0 5,
              auto_dns := true, primary := false }]
    domains := [root, "0.0.10.in-addr.arpa"]
    records := [
      { domain := root, name := old ++ "." ++ root, type := "A",
        content := "10.0.0.5", auth := true },
      { domain := "0.0.10.in-addr.arpa", name := "5.0.0.10.in-addr.arpa",
        type := "PTR", content := old ++ "." ++ root, auth := true } ] }

/-- Two-assignment host-rename scenario: host pk 1 named `old` owning a
bare assignment (pk 10, 10.0.0.5) and a primary assignment on interface
`mail` (pk 11, 10.0.0.6), both `auto_dns`, with exactly the records the
create path produces for them: two forwards, two PTRs and the CNAME
from the host FQDN to the primary interface FQDN. -/
def rename2Db (root old : String) : DB :=
  { hosts := [{ pk := 1, name := old }]
    ips := [{ pk := 10, host := 1, interface := none, ip := .v4 10 0 0 5,
              auto_dns := true, primary := false },
            { pk := 11, host := 1, interface := some "mail", ip := .v4 10 0 0 6,
              auto_dns := true, primary := true }]
    domains := [root, "0.0.10.in-addr.arpa"]
    records := [
      { domain := root, name := old ++ "." ++ root, type := "A",
        content := "10.0.0.5", auth := true },
      { domain := "0.0.10.in-addr.arpa", name := "5.0.0.10.in-addr.arpa",
        type := "PTR", content := old ++ "." ++ root, auth := true },
      { domain := root, name := "mail." ++ old ++ "." ++ root, type := "A",
        content := "10.0.0.6", auth := true },
      { domain := "0.0.10.in-addr.arpa", name := "6.0.0.10.in-addr.arpa",
        type := "PTR", content := "mail." ++ old ++ "." ++ root, auth := true },
      { domain := root, name := old ++ "." ++ root, type := "CNAME",
        content := "mail." ++ old ++ "." ++ root, auth := true } ] }

/-- Creation scenario of the spec's worked example: host `foo`, root
domain `example.com`, the root zone and the /24 reverse zone present,
no records yet. -/
def fooDb : DB :=
  { hosts := [{ pk := 1, name := "foo" }], ips := [],
    domains := ["example.com", "0.0.10.in-addr.arpa"], records := [] }

/-- Fresh assignment of 10.0.0.5 to host `foo`, no interface,
`auto_dns` set, not primary. -/
def fooObj : IPObj :=
  { pk := none, host := 1, interface := none, ip := .v4 10 0 0 5,
    auto_dns := true, primary := false }

/-- Expected state after saving `fooObj` into `fooDb`. -/
def fooRes : DB :=
  { hosts := [{ pk := 1, name := "foo" }],
    ips := [{ pk := 1, host := 1, interface := none, ip := .v4 10 0 0 5,
              auto_dns := true, primary := false }],
    domains := ["example.com", "0.0.10.in-addr.arpa"],
    records := [
      { domain := "example.com", name := "foo.example.com", type := "A",
        content := "10.0.0.5", auth := true },
      { domain := "0.0.10.in-addr.arpa", name := "5.0.0.10.in-addr.arpa",
        type := "PTR", content := "foo.example.com", auth := true } ] }

/-- Store holding one PTR record whose name is an upper-case variant of
the host-form reverse name of 10.0.0.5 and whose content matches the
assignment FQDN. -/
def upperPtrDb : DB :=
  { hosts := [{ pk := 1, name := "foo" }],
    ips := [{ pk := 10, host := 1, interface := none, ip := .v4 10 0 0 5,
              auto_dns := true, primary := false }],
    domains := ["example.com"],
    records := [
      { domain := "0.0.10.in-addr.arpa", name := "5.0.0.10.IN-ADDR.ARPA",
        type := "PTR", content := "foo.example.com", auth := true } ] }

/-- Stored assignment of `upperPtrDb` as a model instance. -/
def upperPtrObj : IPObj :=
  { pk := some 10, host := 1, interface := none, ip := .v4 10 0 0 5,
    auto_dns := true, primary := false }

/-- PTR-fallback scenario: the boundary zone `0.0.10.in-addr.arpa` and
the once-stripped zone `0.10.in-addr.arpa` are both absent, while the
twice-stripped `10.in-addr.arpa` is present (so exactly one widening
retry must happen, not two). -/
def fallbackDb : DB :=
  { hosts := [{ pk := 1, name := "foo" }], ips := [],
    domains := ["example.com", "10.in-addr.arpa"], records := [] }

/-- PTR-fallback scenario where the once-stripped zone
`0.10.in-addr.arpa` is present and the boundary zone is not. -/
def fallback2Db : DB :=
  { hosts := [{ pk := 1, name := "foo" }], ips := [],
    domains := ["example.com", "0.10.in-addr.arpa"], records := [] }

/-- Expected record store after `_add_dns` on `fallbackDb`: the forward
record only, no PTR. -/
def fallbackRes : DB :=
  { fallbackDb with records := [
      { domain := "example.com", name := "foo.example.com", type := "A",
        content := "10.0.0.5", auth := true } ] }

/-- Stored assignment row of the host-rename scenario. -/
def renameRow : IPRow :=
  { pk := 10, host := 1, interface := none, ip := .v4 10 0 0 5,
    auto_dns := true, primary := false }

/-- Update scenario: the stored assignment of `renameDb` re-saved with
an interface label added (so its computed FQDN changes). -/
def updObj : IPObj :=
  { pk := some 10, host := 1, interface := some "eth0", ip := .v4 10 0 0 5,
    auto_dns := true, primary := false }

/-- Update-failure scenario: host `foo` with two stored assignments,
pk 10 holding 10.0.0.5 and pk 11 holding 10.0.0.6. -/
def dupDb : DB :=
  { hosts := [{ pk := 1, name := "foo" }],
    ips := [{ pk := 10, host := 1, interface := none, ip := .v4 10 0 0 5,
              auto_dns := true, primary := false },
            { pk := 11, host := 1, interface := some "eth1", ip := .v4 10 0 0 6,
              auto_dns := true, primary := false }],
    domains := ["example.com", "0.0.10.in-addr.arpa"],
    records := [] }

/-- The stored assignment pk 10 of `dupDb` re-saved with its address
changed to 10.0.0.6 — an update whose re-insert collides with pk 11. -/
def dupUpdObj : IPObj :=
  { pk := some 10, host := 1, interface := none, ip := .v4 10 0 0 6,
    auto_dns := true, primary := false }

/-- Intermediate record stores of one `IPAddress.save` call, in
execution order: the initial store; the store after the delete step
(`pre_delete` hook removal); then, mirroring `_add_dns` on the reset
instance (`pk = None`, so its old-name branch is skipped): after the
forward get-or-create, after the best-effort PTR, and after the
conditional CNAME. When a step fails the trace stops at the states
actually reached. -/
def saveRecordTrace (root : String) (self : IPObj) (db : DB) : List (List Record) :=
  match IPAddress_delete root self db with
  | .error _ => [db.records]
  | .ok db1 =>
    if !self.auto_dns then [db.records, db1.records]
    else
    match getHost db1 self.host with
    | none => [db.records, db1.records]
    | some h =>
      if db1.domains.contains root then
        let fq := ipFqdn root h.name self.interface
        let rs2 := getOrCreateFwd root (slower fq) (fwdType self.ip) self.ip.str db1.records
        let rs3 :=
          match resolvePtrZone db1 (IPAddress_generate_ptr self.ip true) with
          | some z =>
              getOrCreatePatch z (IPAddress_generate_ptr self.ip false) "PTR" (slower fq) rs2
          | none => rs2
        let rs4 :=
          if self.primary && (ifaceVal self.interface).isSome then
            getOrCreatePatch root (slower (hostFqdn root h.name)) "CNAME" (slower fq) rs3
          else rs3
        [db.records, db1.records, rs2, rs3, rs4]
      else [db.records, db1.records]

/-! Helper lemmas about lower-casing and string concatenation. -/

theorem lc_idem (c : Char) : lc (lc c) = lc c := by
  have h : lc c = c ∨ lc c = 'a' ∨ lc c = 'b' ∨ lc c = 'c' ∨ lc c = 'd' ∨ lc c = 'e' ∨
      lc c = 'f' ∨ lc c = 'g' ∨ lc c = 'h' ∨ lc c = 'i' ∨ lc c = 'j' ∨ lc c = 'k' ∨
      lc c = 'l' ∨ lc c = 'm' ∨ lc c = 'n' ∨ lc c = 'o' ∨ lc c = 'p' ∨ lc c = 'q' ∨
      lc c = 'r' ∨ lc c = 's' ∨ lc c = 't' ∨ lc c = 'u' ∨ lc c = 'v' ∨ lc c = 'w' ∨
      lc c = 'x' ∨ lc c = 'y' ∨ lc c = 'z' := by
    unfold lc
    split <;> simp
  rcases h with h|h|h|h|h|h|h|h|h|h|h|h|h|h|h|h|h|h|h|h|h|h|h|h|h|h|h <;>
    (rw [h]; first | exact h | rfl)

theorem slower_idem (s : String) : slower (slower s) = slower s := by
  apply String.ext
  show (s.data.map lc).map lc = s.data.map lc
  rw [List.map_map]
  exact List.map_congr_left (fun a _ => lc_idem a)

theorem slower_append (a b : String) : slower (a ++ b) = slower a ++ slower b := by
  apply String.ext
  show (a ++ b).data.map lc = (slower a ++ slower b).data
  simp [String.data_append, slower]

theorem str_append_cancel {a b c : String} (h : a ++ c = b ++ c) : a = b := by
  apply String.ext
  have h2 := congrArg String.data h
  simp only [String.data_append] at h2
  exact List.append_cancel_right h2

/-- C10: calling `_remove_dns` on an assignment with no stored identity
(`pk` is `None`) is a no-op: the state, in particular the record store,
is returned unchanged and no error is raised. -/
theorem remove_dns_without_pk_is_noop (root : String) (self : IPObj) (db : DB)
    (h : self.pk = none) : IPAddress_remove_dns root self db = .ok db := by
  unfold IPAddress_remove_dns
  rw [h]

theorem remove_dns_without_pk_is_noop_witness :
    IPAddress_remove_dns "example.com" fooObj fooDb = .ok fooDb :=
  remove_dns_without_pk_is_noop "example.com" fooObj fooDb rfl

/-- C8: `_generate_ptr` produces exactly the spec's reverse-zone names:
for IPv4 `w.x.y.z` the host form `z.y.x.w.in-addr.arpa` and the /24
boundary form `y.x.w.in-addr.arpa`; for IPv6 the exploded nibbles
reversed and dot-joined under `.ip6.arpa`, with the first 20 labels
(the 20 low nibbles) dropped at the boundary; for a 32-nibble address
the boundary form keeps exactly 12 nibble labels. -/
theorem generate_ptr_matches_spec :
    (∀ (ip : IPAddr) (atB : Bool),
        IPAddress_generate_ptr ip atB = reverseZoneNameSpec ip atB) ∧
    (∀ nibs : List Nat, nibs.length = 32 →
        ((nibs.reverse.map (fun n => String.singleton (hexChar n))).drop 20).length = 12) := by
  constructor
  · intro ip atB
    cases ip with
    | v4 a b c d => cases atB <;> rfl
    | v6 nibs =>
      cases atB <;>
        simp [IPAddress_generate_ptr, reverseZoneNameSpec, List.map_reverse,
          List.map_drop, List.map_map, Function.comp_def]
  · intro nibs h
    simp [List.length_drop, h]

theorem generate_ptr_matches_spec_witness :
    IPAddress_generate_ptr (.v4 10 0 0 5) true = reverseZoneNameSpec (.v4 10 0 0 5) true ∧
    (((List.replicate 32 1).reverse.map (fun n => String.singleton (hexChar n))).drop 20).length = 12 :=
  ⟨generate_ptr_matches_spec.1 (.v4 10 0 0 5) true,
   generate_ptr_matches_spec.2 (List.replicate 32 1) (by decide)⟩

/-- C4 counterexample: saving the assignment 10.0.0.5 on host `foo`
(root `example.com`, reverse zone present) creates a PTR whose content
is `foo.example.com` with no trailing dot, so the claim's PTR content
`foo.example.com.` (trailing dot, as the spec writes it) matches no
created record. -/
theorem create_foo_ptr_has_no_trailing_dot :
    IPAddress_save "example.com" fooObj fooDb = .ok fooRes ∧
    fooRes.records.any (fun r => r.content == "foo.example.com.") = false ∧
    fooRes.records.any (fun r => r.type == "PTR" && r.content == "foo.example.com") = true :=
  ⟨rfl, rfl, rfl⟩

/-- C4 (amended): creating the assignment 10.0.0.5 for host `foo`
(interface absent, autoDns set, root `example.com`, zone
`0.0.10.in-addr.arpa` present) creates exactly an authoritative A
record `foo.example.com -> 10.0.0.5` in the root zone and a PTR record
`5.0.0.10.in-addr.arpa -> foo.example.com` (no trailing dot). -/
theorem create_foo_records_exact :
    IPAddress_save "example.com" fooObj fooDb = .ok fooRes ∧
    fooRes.records = [
      { domain := "example.com", name := "foo.example.com", type := "A",
        content := "10.0.0.5", auth := true },
      { domain := "0.0.10.in-addr.arpa", name := "5.0.0.10.in-addr.arpa",
        type := "PTR", content := "foo.example.com", auth := true } ] :=
  ⟨rfl, rfl⟩

/-- C3 counterexample: the store of `upperPtrDb` holds exactly one PTR
record whose name matches the host-form reverse name of the stored
assignment case-insensitively (upper-case variant) and whose content
matches the old FQDN, yet `_remove_dns` leaves the store unchanged —
the code matches PTR names exactly (`name=`), not case-insensitively. -/
theorem remove_dns_ptr_name_case_sensitive :
    IPAddress_remove_dns "example.com" upperPtrObj upperPtrDb = .ok upperPtrDb ∧
    upperPtrDb.records =
      [{ domain := "0.0.10.in-addr.arpa", name := "5.0.0.10.IN-ADDR.ARPA",
         type := "PTR", content := "foo.example.com", auth := true }] ∧
    slower "5.0.0.10.IN-ADDR.ARPA"
      = slower (IPAddress_generate_ptr (.v4 10 0 0 5) false) ∧
    slower "foo.example.com" = slower (ipFqdn "example.com" "foo" none) :=
  ⟨rfl, rfl, rfl, rfl⟩

theorem bool_del_combine (a b c : Bool) :
    ((!c && !b) && !a) = !(a || true && b || c) := by
  cases a <;> cases b <;> cases c <;> rfl

theorem bool_del_combine2 (a b c : Bool) :
    (!c && !a) = !(a || false && b || c) := by
  cases a <;> cases c <;> rfl

/-- C3 (amended): `_remove_dns` deletes exactly the records matched by
the three delete filters — the A/AAAA records at the old FQDN
(name case-insensitive, content equal to the old address exactly), the
CNAME at the host FQDN with old-FQDN content (both case-insensitive)
when `primary` was set, and the PTR at the host-form reverse name
(name matched exactly, content case-insensitively) — and no other
record. -/
theorem remove_dns_deletes_exactly (root : String) (self : IPObj) (db : DB)
    (pk : Nat) (orig : IPRow) (h : HostRow)
    (hpk : self.pk = some pk) (horig : getIp db pk = some orig)
    (hh : getHost db orig.host = some h) :
    IPAddress_remove_dns root self db =
      .ok { db with records :=
              db.records.filter (fun r =>
                !(fwdDelPred (ipFqdn root h.name orig.interface) orig.ip.str r
                  || (orig.primary &&
                      cnameDelPred (hostFqdn root h.name) (ipFqdn root h.name orig.interface) r)
                  || ptrDelPred (IPAddress_generate_ptr orig.ip false)
                      (ipFqdn root h.name orig.interface) r)) } := by
  simp only [IPAddress_remove_dns, hpk, horig, hh]
  cases hp : orig.primary with
  | true =>
    simp only [hp]
    rw [if_pos trivial, List.filter_filter, List.filter_filter]
    have hrec : List.filter
        (fun r =>
          (!ptrDelPred (IPAddress_generate_ptr orig.ip false) (ipFqdn root h.name orig.interface) r &&
           !cnameDelPred (hostFqdn root h.name) (ipFqdn root h.name orig.interface) r) &&
          !fwdDelPred (ipFqdn root h.name orig.interface) orig.ip.str r) db.records
        = List.filter (fun r =>
          !(fwdDelPred (ipFqdn root h.name orig.interface) orig.ip.str r
            || (true && cnameDelPred (hostFqdn root h.name) (ipFqdn root h.name orig.interface) r)
            || ptrDelPred (IPAddress_generate_ptr orig.ip false) (ipFqdn root h.name orig.interface) r)) db.records :=
      List.filter_congr (fun r _ =>
        bool_del_combine
          (fwdDelPred (ipFqdn root h.name orig.interface) orig.ip.str r)
          (cnameDelPred (hostFqdn root h.name) (ipFqdn root h.name orig.interface) r)
          (ptrDelPred (IPAddress_generate_ptr orig.ip false) (ipFqdn root h.name orig.interface) r))
    rw [hrec]
  | false =>
    rw [if_neg (by simp), List.filter_filter]
    have hrec : List.filter
        (fun r =>
          !ptrDelPred (IPAddress_generate_ptr orig.ip false) (ipFqdn root h.name orig.interface) r &&
          !fwdDelPred (ipFqdn root h.name orig.interface) orig.ip.str r) db.records
        = List.filter (fun r =>
          !(fwdDelPred (ipFqdn root h.name orig.interface) orig.ip.str r
            || (false && cnameDelPred (hostFqdn root h.name) (ipFqdn root h.name orig.interface) r)
            || ptrDelPred (IPAddress_generate_ptr orig.ip false) (ipFqdn root h.name orig.interface) r)) db.records :=
      List.filter_congr (fun r _ =>
        bool_del_combine2
          (fwdDelPred (ipFqdn root h.name orig.interface) orig.ip.str r)
          (cnameDelPred (hostFqdn root h.name) (ipFqdn root h.name orig.interface) r)
          (ptrDelPred (IPAddress_generate_ptr orig.ip false) (ipFqdn root h.name orig.interface) r))
    rw [hrec]

theorem remove_dns_deletes_exactly_witness :
    getIp upperPtrDb 10 =
      some { pk := 10, host := 1, interface := none,
             ip := .v4 10 0 0 5, auto_dns := true, primary := false } ∧
    IPAddress_remove_dns "example.com" upperPtrObj upperPtrDb =
      .ok { upperPtrDb with
            records := upperPtrDb.records.filter (fun r =>
              !(fwdDelPred (ipFqdn "example.com" "foo" none) (IPAddr.v4 10 0 0 5).str r
                || (false &&
                    cnameDelPred (hostFqdn "example.com" "foo") (ipFqdn "example.com" "foo" none) r)
                || ptrDelPred (IPAddress_generate_ptr (.v4 10 0 0 5) false)
                    (ipFqdn "example.com" "foo" none) r)) } :=
  ⟨rfl, remove_dns_deletes_exactly "example.com" upperPtrObj upperPtrDb 10
    { pk := 10, host := 1, interface := none, ip := .v4 10 0 0 5,
      auto_dns := true, primary := false }
    { pk := 1, name := "foo" } rfl rfl rfl⟩

theorem mem_getOrCreateFwd {dom nm ty ct : String} {l : List Record} {r : Record}
    (h : r ∈ getOrCreateFwd dom nm ty ct l) : r ∈ l ∨ r.type = ty := by
  unfold getOrCreateFwd at h
  split at h
  · exact Or.inl h
  · rcases List.mem_append.mp h with h2 | h2
    · exact Or.inl h2
    · right
      rw [List.mem_singleton.mp h2]

theorem mem_patchFirst {p : Record → Bool} {ct : String} :
    ∀ {l : List Record} {r : Record}, r ∈ patchFirst p ct l →
      r ∈ l ∨ ∃ r0, r0 ∈ l ∧ p r0 = true ∧ r = { r0 with content := ct } := by
  intro l
  induction l with
  | nil => intro r h; exact Or.inl h
  | cons a t ih =>
    intro r h
    unfold patchFirst at h
    by_cases hpa : p a = true
    · rw [if_pos hpa] at h
      rcases List.mem_cons.mp h with h2 | h2
      · exact Or.inr ⟨a, List.mem_cons_self a t, hpa, h2⟩
      · exact Or.inl (List.mem_cons_of_mem a h2)
    · rw [if_neg hpa] at h
      rcases List.mem_cons.mp h with h2 | h2
      · exact Or.inl (by rw [h2]; exact List.mem_cons_self a t)
      · rcases ih h2 with h3 | ⟨r0, hr0, hp0, he⟩
        · exact Or.inl (List.mem_cons_of_mem a h3)
        · exact Or.inr ⟨r0, List.mem_cons_of_mem a hr0, hp0, he⟩

theorem mem_getOrCreatePatch {dom nm ty ct : String} {l : List Record} {r : Record}
    (h : r ∈ getOrCreatePatch dom nm ty ct l) : r ∈ l ∨ r.type = ty := by
  unfold getOrCreatePatch at h
  split at h
  · rcases mem_patchFirst h with h2 | ⟨r0, hr0, hp0, he⟩
    · exact Or.inl h2
    · right
      have := (Bool.and_eq_true _ _).mp ((Bool.and_eq_true _ _).mp hp0).1
      have hty : r0.type = ty := by
        have := this.1
        simpa using this
      rw [he]
      exact hty
  · rcases List.mem_append.mp h with h2 | h2
    · exact Or.inl h2
    · right
      rw [List.mem_singleton.mp h2]

theorem fwdType_ne_ptr (ip : IPAddr) : fwdType ip ≠ "PTR" := by
  cases ip <;> simp [fwdType]

/-- C5: when the boundary-form reverse zone is absent from the store,
`_add_dns` retries exactly once with one more leading label stripped;
if that zone is also absent, the PTR write is skipped without any error
and the forward record is still created (no new PTR appears); if the
once-stripped zone exists, the PTR is created in it. -/
theorem add_dns_ptr_zone_fallback (root : String) (self : IPObj) (db : DB)
    (h : HostRow) (hh : getHost db self.host = some h) (hpk : self.pk = none)
    (hroot : db.domains.contains root = true)
    (hB : db.domains.contains (IPAddress_generate_ptr self.ip true) = false) :
    (db.domains.contains (stripLabel (IPAddress_generate_ptr self.ip true)) = false →
      IPAddress_add_dns root self db = .ok { db with records :=
        (if self.primary && (ifaceVal self.interface).isSome then
          getOrCreatePatch root (slower (hostFqdn root h.name)) "CNAME"
            (slower (ipFqdn root h.name self.interface))
            (getOrCreateFwd root (slower (ipFqdn root h.name self.interface))
              (fwdType self.ip) self.ip.str db.records)
        else
          getOrCreateFwd root (slower (ipFqdn root h.name self.interface))
            (fwdType self.ip) self.ip.str db.records) } ∧
      ∀ r ∈ (if self.primary && (ifaceVal self.interface).isSome then
          getOrCreatePatch root (slower (hostFqdn root h.name)) "CNAME"
            (slower (ipFqdn root h.name self.interface))
            (getOrCreateFwd root (slower (ipFqdn root h.name self.interface))
              (fwdType self.ip) self.ip.str db.records)
        else
          getOrCreateFwd root (slower (ipFqdn root h.name self.interface))
            (fwdType self.ip) self.ip.str db.records),
        r.type = "PTR" → r ∈ db.records) ∧
    (db.domains.contains (stripLabel (IPAddress_generate_ptr self.ip true)) = true →
      IPAddress_add_dns root self db = .ok { db with records :=
        (if self.primary && (ifaceVal self.interface).isSome then
          getOrCreatePatch root (slower (hostFqdn root h.name)) "CNAME"
            (slower (ipFqdn root h.name self.interface))
            (getOrCreatePatch (stripLabel (IPAddress_generate_ptr self.ip true))
              (IPAddress_generate_ptr self.ip false) "PTR"
              (slower (ipFqdn root h.name self.interface))
              (getOrCreateFwd root (slower (ipFqdn root h.name self.interface))
                (fwdType self.ip) self.ip.str db.records))
        else
          getOrCreatePatch (stripLabel (IPAddress_generate_ptr self.ip true))
            (IPAddress_generate_ptr self.ip false) "PTR"
            (slower (ipFqdn root h.name self.interface))
            (getOrCreateFwd root (slower (ipFqdn root h.name self.interface))
              (fwdType self.ip) self.ip.str db.records)) }) := by
  refine ⟨fun hS => ⟨?_, ?_⟩, fun hS => ?_⟩
  · simp only [IPAddress_add_dns, addDnsOldNameRemoval, hh, hpk, hroot, resolvePtrZone, hB, hS,
      Bool.false_eq_true, if_false, if_true]
  · intro r hr hptr
    rcases hcnd : (self.primary && (ifaceVal self.interface).isSome) with _ | _
    · rw [hcnd] at hr
      simp only [if_false, Bool.false_eq_true] at hr
      rcases mem_getOrCreateFwd hr with h2 | h2
      · exact h2
      · exact absurd (h2.symm.trans hptr) (fwdType_ne_ptr self.ip)
    · rw [hcnd] at hr
      simp only [if_true] at hr
      rcases mem_getOrCreatePatch hr with h2 | h2
      · rcases mem_getOrCreateFwd h2 with h3 | h3
        · exact h3
        · exact absurd (h3.symm.trans hptr) (fwdType_ne_ptr self.ip)
      · rw [hptr] at h2
        exact absurd h2 (by decide)
  · simp only [IPAddress_add_dns, addDnsOldNameRemoval, hh, hpk, hroot, resolvePtrZone, hB, hS,
      Bool.false_eq_true, if_false, if_true]

theorem add_dns_ptr_zone_fallback_witness :
    fallbackDb.domains.contains "0.0.10.in-addr.arpa" = false ∧
    fallbackDb.domains.contains "0.10.in-addr.arpa" = false ∧
    fallbackDb.domains.contains "10.in-addr.arpa" = true ∧
    (IPAddress_add_dns "example.com" fooObj fallbackDb = .ok fallbackRes ∧
      ∀ r ∈ fallbackRes.records, r.type = "PTR" → r ∈ fallbackDb.records) :=
  ⟨rfl, rfl, rfl,
    (add_dns_ptr_zone_fallback "example.com" fooObj fallbackDb
      { pk := 1, name := "foo" } rfl rfl rfl rfl).1 rfl⟩

theorem cascadeDelete_no_auto (root : String) :
    ∀ (rows : List IPRow), (∀ r ∈ rows, r.auto_dns = false) → ∀ (db : DB),
      cascadeDelete root rows db = .ok { db with
        ips := db.ips.filter (fun x => !(rows.any (fun rr => x.pk == rr.pk))) } := by
  intro rows
  induction rows with
  | nil => intro _ db; simp [cascadeDelete]
  | cons r t ih =>
    intro h db
    have hr : r.auto_dns = false := h r (List.mem_cons_self r t)
    have ht : ∀ x ∈ t, x.auto_dns = false := fun x hx => h x (List.mem_cons_of_mem r hx)
    simp only [cascadeDelete, remote_dns_hook, IPRow.obj, hr, Bool.false_eq_true, if_false]
    rw [ih ht]
    rw [List.filter_filter]
    have hpred : List.filter
        (fun x => !(t.any (fun rr => x.pk == rr.pk)) && !(x.pk == r.pk)) db.ips
        = List.filter (fun x => !((r :: t).any (fun rr => x.pk == rr.pk))) db.ips :=
      List.filter_congr (fun x _ => by
        simp only [List.any_cons, Bool.not_or, Bool.and_comm])
    rw [hpred]

/-- C7: deleting an assignment (directly, or cascaded from deleting its
host) runs DNS record removal exactly when the instance's `auto_dns`
flag is set at deletion time: with the flag unset the record store is
returned completely unchanged (only the assignment rows go away), and
with the flag set the record store is exactly `_remove_dns`'s output. -/
theorem delete_removes_dns_iff_auto (root : String) (self : IPObj) (db : DB) :
    (self.auto_dns = false →
      IPAddress_delete root self db =
        .ok { db with ips := db.ips.filter (fun r => !(some r.pk == self.pk)) }) ∧
    (∀ d, self.auto_dns = true → IPAddress_remove_dns root self db = .ok d →
      IPAddress_delete root self db =
        .ok { d with ips := d.ips.filter (fun r => !(some r.pk == self.pk)) }) ∧
    (∀ hostPk, (∀ r ∈ db.ips.filter (fun r => r.host == hostPk), r.auto_dns = false) →
      ∀ hobj : HostObj, hobj.pk = some hostPk →
      Host_delete root hobj db =
        .ok { db with
              ips := db.ips.filter (fun x =>
                !((db.ips.filter (fun r => r.host == hostPk)).any (fun rr => x.pk == rr.pk))),
              hosts := db.hosts.filter (fun h => !(h.pk == hostPk)) }) := by
  refine ⟨?_, ?_, ?_⟩
  · intro hf
    simp only [IPAddress_delete, remote_dns_hook, hf, Bool.false_eq_true, if_false]
  · intro d ht hrem
    simp only [IPAddress_delete, remote_dns_hook, ht, if_true, hrem]
  · intro hostPk hall hobj hpk
    simp only [Host_delete, hpk]
    rw [cascadeDelete_no_auto root _ hall db]

theorem delete_removes_dns_iff_auto_witness :
    IPAddress_delete "example.com"
      { pk := some 10, host := 1, interface := none, ip := .v4 10 0 0 5,
        auto_dns := false, primary := false } (renameDb "example.com" "foo") =
    .ok { (renameDb "example.com" "foo") with
          ips := (renameDb "example.com" "foo").ips.filter
            (fun r => !(some r.pk == some 10)) } :=
  (delete_removes_dns_iff_auto "example.com"
    { pk := some 10, host := 1, interface := none, ip := .v4 10 0 0 5,
      auto_dns := false, primary := false } (renameDb "example.com" "foo")).1 rfl

theorem remove_dns_fields (root : String) (self : IPObj) (db db2 : DB)
    (h : IPAddress_remove_dns root self db = .ok db2) :
    db2.ips = db.ips ∧ db2.hosts = db.hosts ∧ db2.domains = db.domains := by
  unfold IPAddress_remove_dns at h
  split at h
  · injection h with h2
    subst h2
    exact ⟨rfl, rfl, rfl⟩
  · split at h
    · exact Except.noConfusion h
    · split at h
      · exact Except.noConfusion h
      · injection h with h2
        subst h2
        exact ⟨rfl, rfl, rfl⟩

theorem addDnsOldNameRemoval_fields (root : String) (self : IPObj) (db db2 : DB)
    (h : addDnsOldNameRemoval root self db = .ok db2) :
    db2.ips = db.ips ∧ db2.hosts = db.hosts ∧ db2.domains = db.domains := by
  unfold addDnsOldNameRemoval at h
  split at h
  · injection h with h2
    subst h2
    exact ⟨rfl, rfl, rfl⟩
  · split at h
    · exact Except.noConfusion h
    · split at h
      · exact Except.noConfusion h
      · split at h
        · exact Except.noConfusion h
        · split at h
          · injection h with h2
            subst h2
            exact ⟨rfl, rfl, rfl⟩
          · exact remove_dns_fields root self db db2 h

theorem add_dns_fields (root : String) (self : IPObj) (db db2 : DB)
    (h : IPAddress_add_dns root self db = .ok db2) :
    db2.ips = db.ips ∧ db2.hosts = db.hosts ∧ db2.domains = db.domains := by
  unfold IPAddress_add_dns at h
  split at h
  · exact Except.noConfusion h
  · rename_i hrow heq
    split at h
    · exact Except.noConfusion h
    · rename_i db1 heq1
      split at h
      · injection h with h2
        subst h2
        exact addDnsOldNameRemoval_fields root self db db1 heq1
      · exact Except.noConfusion h

theorem delete_ips (root : String) (self : IPObj) (db db2 : DB)
    (h : IPAddress_delete root self db = .ok db2) :
    db2.ips = db.ips.filter (fun r => !(some r.pk == self.pk)) := by
  unfold IPAddress_delete remote_dns_hook at h
  by_cases hauto : self.auto_dns = true
  · rw [if_pos hauto] at h
    rcases hrem : IPAddress_remove_dns root self db with e | d
    · rw [hrem] at h
      exact Except.noConfusion h
    · rw [hrem] at h
      injection h with h2
      subst h2
      show d.ips.filter _ = _
      rw [(remove_dns_fields root self db d hrem).1]
  · rw [if_neg hauto] at h
    injection h with h2
    subst h2
    rfl

/-- C2: `IPAddress.save` and `IPAddress.delete` are all-or-nothing under
`transaction.atomic`: every failing run commits exactly the initial
state (DNS and assignment rows untouched). In particular, for an update
(an existing `pk`, so `save` deletes the stored row and recreates it)
whose re-insert hits the unique address constraint — another surviving
row holds the same address — the whole operation fails and the
already-executed delete and DNS writes are discarded, leaving the
assignment in its prior state; a create (`pk` absent) colliding with a
stored address likewise commits nothing. -/
theorem save_failure_rolls_back_all_paths (root : String) (self : IPObj) (db : DB) :
    (∀ e, IPAddress_save root self db = .error e →
      IPAddress_save_atomic root self db = (db, some e)) ∧
    (∀ e, IPAddress_delete root self db = .error e →
      transaction_atomic (IPAddress_delete root self) db = (db, some e)) ∧
    (∀ p, self.pk = some p → (∃ r, r ∈ db.ips ∧ r.pk ≠ p ∧ r.ip = self.ip) →
      ∃ e, IPAddress_save_atomic root self db = (db, some e)) ∧
    (self.pk = none → db.ips.any (fun r => r.ip == self.ip) = true →
      ∃ e, IPAddress_save_atomic root self db = (db, some e)) := by
  refine ⟨?_, ?_, ?_, ?_⟩
  · intro e he
    unfold IPAddress_save_atomic transaction_atomic
    rw [he]
  · intro e he
    unfold transaction_atomic
    rw [he]
  · rintro p hp ⟨r, hr, hrpk, hrip⟩
    unfold IPAddress_save_atomic transaction_atomic IPAddress_save
    simp only [hp]
    rcases hdelE : IPAddress_delete root self db with e | db1
    · simp only [hdelE]
      exact ⟨e, rfl⟩
    · simp only [hdelE]
      have hips1 : db1.ips = db.ips.filter (fun x => !(some x.pk == self.pk)) :=
        delete_ips root self db db1 hdelE
      have hrin : r ∈ db1.ips := by
        rw [hips1]
        refine List.mem_filter.mpr ⟨hr, ?_⟩
        rw [hp]
        simp [hrpk]
      have hdup1 : db1.ips.any (fun x => x.ip == self.ip) = true :=
        List.any_eq_true.mpr ⟨r, hrin, by simp [hrip]⟩
      rcases hauto : self.auto_dns with _ | _
      · simp only [hauto, Bool.false_eq_true, if_false, hdup1, if_true]
        exact ⟨.duplicateIp, rfl⟩
      · simp only [hauto, if_true]
        rcases hadd : IPAddress_add_dns root
            { pk := none, host := self.host, interface := self.interface, ip := self.ip,
              auto_dns := true, primary := self.primary } db1 with e | db2
        · simp only [hadd]
          exact ⟨e, rfl⟩
        · simp only [hadd]
          have hips2 : db2.ips = db1.ips := (add_dns_fields root _ db1 db2 hadd).1
          simp only [hips2, hdup1, if_true]
          exact ⟨.duplicateIp, rfl⟩
  · intro hpk hdup
    unfold IPAddress_save_atomic transaction_atomic IPAddress_save
    rw [hpk]
    cases hauto : self.auto_dns with
    | false =>
      simp only [hauto, Bool.false_eq_true, if_false, hdup, if_true]
      exact ⟨.duplicateIp, rfl⟩
    | true =>
      rcases hadd : IPAddress_add_dns root self db with e | db2
      · simp only [hauto, if_true, hadd]
        exact ⟨e, rfl⟩
      · have hips : db2.ips = db.ips := (add_dns_fields root self db db2 hadd).1
        simp only [hauto, if_true, hadd, hips, hdup]
        exact ⟨.duplicateIp, rfl⟩

theorem save_failure_rolls_back_all_paths_witness :
    ∃ e, IPAddress_save_atomic "example.com" dupUpdObj dupDb = (dupDb, some e) :=
  (save_failure_rolls_back_all_paths "example.com" dupUpdObj dupDb).2.2.1 10 rfl
    ⟨{ pk := 11, host := 1, interface := some "eth1", ip := .v4 10 0 0 6,
       auto_dns := true, primary := false }, by decide, by decide, rfl⟩

/-! Lemmas for the CIDR parser/renderer roundtrip (C9). -/

theorem splitCh_ne_nil (sep : Char) : ∀ (l : List Char), splitCh sep l ≠ [] := by
  intro l
  cases l with
  | nil => simp [splitCh]
  | cons c t =>
    unfold splitCh
    cases h : splitCh sep t with
    | nil => simp
    | cons h0 r => by_cases hc : c = sep <;> simp [hc]

theorem splitCh_sep_cons (sep : Char) (b : List Char) :
    splitCh sep (sep :: b) = [] :: splitCh sep b := by
  conv_lhs => rw [splitCh]
  cases h : splitCh sep b with
  | nil => exact absurd h (splitCh_ne_nil sep b)
  | cons h0 r => simp

theorem splitCh_nonsep_cons (sep c : Char) (t : List Char) (hc : c ≠ sep) :
    splitCh sep (c :: t) = (c :: (splitCh sep t).headD []) :: (splitCh sep t).tail := by
  conv_lhs => rw [splitCh]
  cases h : splitCh sep t with
  | nil => exact absurd h (splitCh_ne_nil sep t)
  | cons h0 r => simp [hc]

theorem splitCh_not_mem {sep : Char} : ∀ {l : List Char}, sep ∉ l → splitCh sep l = [l] := by
  intro l
  induction l with
  | nil => intro _; rfl
  | cons c t ih =>
    intro h
    have hc : c ≠ sep := fun he => h (he ▸ List.mem_cons_self c t)
    have ht : sep ∉ t := fun hm => h (List.mem_cons_of_mem c hm)
    rw [splitCh_nonsep_cons sep c t hc, ih ht]
    simp

theorem splitCh_append {sep : Char} :
    ∀ {a : List Char} (b : List Char), sep ∉ a →
      splitCh sep (a ++ sep :: b) = a :: splitCh sep b := by
  intro a
  induction a with
  | nil =>
    intro b _
    exact splitCh_sep_cons sep b
  | cons c a2 ih =>
    intro b h
    have hc : c ≠ sep := fun he => h (he ▸ List.mem_cons_self c a2)
    have ha : sep ∉ a2 := fun hm => h (List.mem_cons_of_mem c hm)
    show splitCh sep (c :: (a2 ++ sep :: b)) = (c :: a2) :: splitCh sep b
    rw [splitCh_nonsep_cons sep c _ hc, ih b ha]
    simp

set_option maxRecDepth 10000 in
theorem octet_roundtrip : ∀ m < 256,
    parseOctet (toString m).data = some m ∧
    (toString m).data.all (fun c => c ≠ '.' && c ≠ '/') = true := by decide

set_option maxRecDepth 10000 in
theorem plen_digits_roundtrip : ∀ n < 129,
    ((toString n).data.isEmpty = false ∧
     (toString n).data.all (fun c => c.isDigit) = true) ∧
    digitsToNat (toString n).data = n ∧
    (toString n).data.all (fun c => c ≠ '.' && c ≠ '/') = true := by decide

theorem dot_slash_not_mem {l : List Char}
    (h : l.all (fun c => c ≠ '.' && c ≠ '/') = true) : '.' ∉ l ∧ '/' ∉ l := by
  rw [List.all_eq_true] at h
  constructor
  · intro hm
    have := h '.' hm
    simp at this
  · intro hm
    have := h '/' hm
    simp at this

theorem renderV4_data (v : Nat) : (renderV4 v).data =
    (toString (v / 16777216 % 256)).data ++ '.' ::
      ((toString (v / 65536 % 256)).data ++ '.' ::
        ((toString (v / 256 % 256)).data ++ '.' :: (toString (v % 256)).data)) := by
  simp [renderV4, String.data_append, List.append_assoc]

theorem parseOctet_le {l : List Char} {n : Nat} (h : parseOctet l = some n) : n ≤ 255 := by
  unfold parseOctet at h
  split at h
  · exact Option.noConfusion h
  · split at h
    · exact Option.noConfusion h
    · split at h
      · exact Option.noConfusion h
      · split at h
        · rename_i hle
          injection h with h2
          subst h2
          exact hle
        · exact Option.noConfusion h

theorem parsePlenDigits_le {w : Nat} {l : List Char} {n : Nat}
    (h : parsePlenDigits w l = some n) : n ≤ w := by
  unfold parsePlenDigits at h
  split at h
  · exact Option.noConfusion h
  · split at h
    · exact Option.noConfusion h
    · split at h
      · rename_i hle
        injection h with h2
        subst h2
        exact hle
      · exact Option.noConfusion h

theorem plenFromMask_le {w m p : Nat} (h : plenFromMask w m = some p) : p ≤ w := by
  unfold plenFromMask at h
  have := List.mem_range.mp (List.mem_of_find?_eq_some h)
  omega

theorem parseMask_le {w : Nat} {pa : List Char → Option Nat} {l : List Char} {n : Nat}
    (h : parseMask w pa l = some n) : n ≤ w := by
  unfold parseMask at h
  split at h
  · exact parsePlenDigits_le h
  · split at h
    · split at h
      · rename_i hpm
        injection h with h2
        subst h2
        exact plenFromMask_le hpm
      · exact plenFromMask_le h
    · exact Option.noConfusion h

theorem parseMask_digits (w : Nat) (pa : List Char → Option Nat) (n : Nat)
    (hn : n ≤ w) (hw : w < 129) : parseMask w pa (toString n).data = some n := by
  have h := plen_digits_roundtrip n (lt_of_le_of_lt hn hw)
  have hc : (!(toString n).data.isEmpty && (toString n).data.all (fun c => c.isDigit)) = true := by
    rw [h.1.1, h.1.2]
    rfl
  unfold parseMask
  rw [if_pos hc]
  unfold parsePlenDigits
  rw [if_neg (fun hh => by rw [h.1.1] at hh; exact Bool.noConfusion hh),
    if_neg (fun hh => by rw [h.1.2] at hh; exact Bool.noConfusion hh),
    if_pos (show digitsToNat (toString n).data ≤ w by rw [h.2.1]; exact hn)]
  rw [h.2.1]

theorem parseV4_lt {l : List Char} {v : Nat} (h : parseV4 l = some v) :
    v < 4294967296 := by
  unfold parseV4 at h
  split at h
  · rename_i a b c d
    split at h
    · rename_i w x y z hw hx hy hz
      injection h with h2
      have bw := parseOctet_le hw
      have bx := parseOctet_le hx
      have by2 := parseOctet_le hy
      have bz := parseOctet_le hz
      omega
    · exact Option.noConfusion h
  · exact Option.noConfusion h

theorem maskAddr_idem (w v n : Nat) : maskAddr w (maskAddr w v n) n = maskAddr w v n := by
  have hpos : 0 < 2 ^ (w - n) := pow_pos (by norm_num) _
  unfold maskAddr
  rw [Nat.mul_div_left (v / 2 ^ (w - n)) hpos]

theorem maskAddr_le (w v n : Nat) : maskAddr w v n ≤ v := Nat.div_mul_le_self v _

theorem maskAddr_full (w v : Nat) : maskAddr w v w = v := by
  unfold maskAddr
  simp

theorem renderV4_roundtrip (m : Nat) (hm : m < 4294967296) :
    parseV4 (renderV4 m).data = some m ∧ '/' ∉ (renderV4 m).data := by
  have ho1 := octet_roundtrip (m / 16777216 % 256) (Nat.mod_lt _ (by norm_num))
  have ho2 := octet_roundtrip (m / 65536 % 256) (Nat.mod_lt _ (by norm_num))
  have ho3 := octet_roundtrip (m / 256 % 256) (Nat.mod_lt _ (by norm_num))
  have ho4 := octet_roundtrip (m % 256) (Nat.mod_lt _ (by norm_num))
  have hslash : '/' ∉ (renderV4 m).data := by
    rw [renderV4_data]
    intro hmem
    simp only [List.mem_append, List.mem_cons] at hmem
    rcases hmem with h | h
    · exact (dot_slash_not_mem ho1.2).2 h
    rcases h with h | h
    · exact absurd h.symm (by decide)
    rcases h with h | h
    · exact (dot_slash_not_mem ho2.2).2 h
    rcases h with h | h
    · exact absurd h.symm (by decide)
    rcases h with h | h
    · exact (dot_slash_not_mem ho3.2).2 h
    rcases h with h | h
    · exact absurd h.symm (by decide)
    · exact (dot_slash_not_mem ho4.2).2 h
  have hsplit4 : splitCh '.' (renderV4 m).data
      = [(toString (m / 16777216 % 256)).data, (toString (m / 65536 % 256)).data,
         (toString (m / 256 % 256)).data, (toString (m % 256)).data] := by
    rw [renderV4_data,
      splitCh_append _ (dot_slash_not_mem ho1.2).1,
      splitCh_append _ (dot_slash_not_mem ho2.2).1,
      splitCh_append _ (dot_slash_not_mem ho3.2).1,
      splitCh_not_mem (dot_slash_not_mem ho4.2).1]
  refine ⟨?_, hslash⟩
  unfold parseV4
  rw [hsplit4]
  simp only [ho1.1, ho2.1, ho3.1, ho4.1]
  congr 1
  omega

theorem parse_netStr4 (m n : Nat) (hm : m < 4294967296) (hn : n ≤ 32) :
    ip_network_strictFalse (netStr (.n4 m n)) = some (.n4 (maskAddr 32 m n) n) := by
  have hrt := renderV4_roundtrip m hm
  have hp := plen_digits_roundtrip n (by omega)
  have hdata : (netStr (IPNet.n4 m n)).data = (renderV4 m).data ++ '/' :: (toString n).data := by
    simp [netStr, String.data_append, List.append_assoc]
  have hsplit : splitCh '/' (netStr (IPNet.n4 m n)).data
      = (renderV4 m).data :: [(toString n).data] := by
    rw [hdata, splitCh_append _ hrt.2,
      splitCh_not_mem (dot_slash_not_mem hp.2.2).2]
  unfold ip_network_strictFalse
  rw [hsplit]
  simp only [hrt.1, parseMask_digits 32 parseV4 n hn (by norm_num)]

theorem hexDigitVal_hexChar : ∀ n < 16, hexDigitVal (hexChar n) = some n := by decide

theorem hexDigitVal_lt {c : Char} {d : Nat} (h : hexDigitVal c = some d) : d < 16 := by
  unfold hexDigitVal at h
  split at h <;> first
    | exact Option.noConfusion h
    | (injection h with h2; omega)

theorem hexChar_ne_sep (m : Nat) :
    hexChar m ≠ '/' ∧ hexChar m ≠ ':' ∧ hexChar m ≠ '.' := by
  unfold hexChar
  split <;> exact ⟨by decide, by decide, by decide⟩

theorem hexDigits_lt : ∀ {l : List Char} {ds : List Nat},
    hexDigits l = some ds → ∀ d ∈ ds, d < 16 := by
  intro l
  induction l with
  | nil =>
    intro ds h d hd
    injection h with h2
    subst h2
    exact absurd hd (List.not_mem_nil d)
  | cons c t ih =>
    intro ds h d hd
    unfold hexDigits at h
    rcases hv : hexDigitVal c with _ | d0
    · simp only [hv] at h
      exact Option.noConfusion h
    · simp only [hv] at h
      rcases hds : hexDigits t with _ | ds0
      · simp only [hds] at h
        exact Option.noConfusion h
      · simp only [hds] at h
        injection h with h2
        subst h2
        rcases List.mem_cons.mp hd with rfl | hm
        · exact hexDigitVal_lt hv
        · exact ih hds d hm

theorem parseHextet_lt {l : List Char} {g : Nat} (h : parseHextet l = some g) : g < 65536 := by
  unfold parseHextet at h
  rcases hds : hexDigits l with _ | ds
  · simp only [hds] at h
    exact Option.noConfusion h
  · simp only [hds] at h
    have hlt := hexDigits_lt hds
    rcases ds with _ | ⟨a, _ | ⟨b, _ | ⟨c, _ | ⟨d, _ | ⟨e, rest⟩⟩⟩⟩⟩
    · exact Option.noConfusion h
    · injection h with h2
      have ha := hlt a (by simp)
      omega
    · injection h with h2
      have ha := hlt a (by simp)
      have hb := hlt b (by simp)
      omega
    · injection h with h2
      have ha := hlt a (by simp)
      have hb := hlt b (by simp)
      have hc := hlt c (by simp)
      omega
    · injection h with h2
      have ha := hlt a (by simp)
      have hb := hlt b (by simp)
      have hc := hlt c (by simp)
      have hd := hlt d (by simp)
      omega
    · exact Option.noConfusion h

theorem foldl16_lt : ∀ (gs : List Nat) (acc : Nat), (∀ g ∈ gs, g < 65536) →
    gs.foldl (fun a g => a * 65536 + g) acc < (acc + 1) * 65536 ^ gs.length := by
  intro gs
  induction gs with
  | nil =>
    intro acc _
    simp only [List.foldl_nil, List.length_nil, pow_zero, mul_one]
    exact Nat.lt_succ_self acc
  | cons g t ih =>
    intro acc h
    have hg : g < 65536 := h g (List.mem_cons_self g t)
    have ht : ∀ x ∈ t, x < 65536 := fun x hx => h x (List.mem_cons_of_mem g hx)
    have h1 := ih (acc * 65536 + g) ht
    have h2 : (acc * 65536 + g + 1) * 65536 ^ t.length
        ≤ ((acc + 1) * 65536) * 65536 ^ t.length :=
      Nat.mul_le_mul_right _ (by omega)
    calc (g :: t).foldl (fun a g => a * 65536 + g) acc
        = t.foldl (fun a g => a * 65536 + g) (acc * 65536 + g) := rfl
      _ < (acc * 65536 + g + 1) * 65536 ^ t.length := h1
      _ ≤ ((acc + 1) * 65536) * 65536 ^ t.length := h2
      _ = (acc + 1) * 65536 ^ (g :: t).length := by
          rw [List.length_cons, pow_succ]
          ring

theorem combine16_lt {gs : List Nat} (hlen : gs.length = 8)
    (h : ∀ g ∈ gs, g < 65536) :
    combine16 gs < 340282366920938463463374607431768211456 := by
  have hf := foldl16_lt gs 0 h
  rw [hlen] at hf
  unfold combine16
  calc gs.foldl (fun a g => a * 65536 + g) 0 < (0 + 1) * 65536 ^ 8 := hf
    _ = 340282366920938463463374607431768211456 := by norm_num

theorem parseHextets_lt : ∀ {ps : List (List Char)} {gs : List Nat},
    parseHextets ps = some gs → ∀ g ∈ gs, g < 65536 := by
  intro ps
  induction ps with
  | nil =>
    intro gs h g hg
    injection h with h2
    subst h2
    exact absurd hg (List.not_mem_nil g)
  | cons p t ih =>
    intro gs h g hg
    unfold parseHextets at h
    rcases hp : parseHextet p with _ | h0
    · simp only [hp] at h
      exact Option.noConfusion h
    · simp only [hp] at h
      rcases ht : parseHextets t with _ | hs
      · simp only [ht] at h
        exact Option.noConfusion h
      · simp only [ht] at h
        injection h with h2
        subst h2
        rcases List.mem_cons.mp hg with rfl | hm
        · exact parseHextet_lt hp
        · exact ih ht g hm

theorem parseTailHextets_lt : ∀ {ps : List (List Char)} {gs : List Nat},
    parseTailHextets ps = some gs → ∀ g ∈ gs, g < 65536 := by
  intro ps
  induction ps with
  | nil =>
    intro gs h g hg
    injection h with h2
    subst h2
    exact absurd hg (List.not_mem_nil g)
  | cons p t ih =>
    intro gs h g hg
    cases t with
    | nil =>
      unfold parseTailHextets at h
      split at h
      · rcases hv : parseV4 p with _ | v
        · simp only [hv] at h
          exact Option.noConfusion h
        · simp only [hv] at h
          injection h with h2
          subst h2
          have hlt := parseV4_lt hv
          rcases List.mem_cons.mp hg with rfl | hm
          · omega
          · rcases List.mem_cons.mp hm with rfl | hm2
            · exact Nat.mod_lt _ (by norm_num)
            · exact absurd hm2 (List.not_mem_nil g)
      · rcases hp : parseHextet p with _ | h0
        · simp only [hp] at h
          exact Option.noConfusion h
        · simp only [hp] at h
          injection h with h2
          subst h2
          rcases List.mem_cons.mp hg with rfl | hm
          · exact parseHextet_lt hp
          · exact absurd hm (List.not_mem_nil g)
    | cons q t2 =>
      unfold parseTailHextets at h
      rcases hp : parseHextet p with _ | h0
      · simp only [hp] at h
        exact Option.noConfusion h
      · simp only [hp] at h
        rcases ht : parseTailHextets (q :: t2) with _ | hs
        · simp only [ht] at h
          exact Option.noConfusion h
        · simp only [ht] at h
          injection h with h2
          subst h2
          rcases List.mem_cons.mp hg with rfl | hm
          · exact parseHextet_lt hp
          · exact ih ht g hm

theorem v6OfParts_lt {hiP loP : List (List Char)} {v : Nat}
    (h : v6OfParts hiP loP = some v) :
    v < 340282366920938463463374607431768211456 := by
  unfold v6OfParts at h
  split at h
  · exact Option.noConfusion h
  · split at h
    · rename_i hi lo hhi hlo
      split at h
      · rename_i h7
        injection h with h2
        subst h2
        apply combine16_lt
        · simp only [List.length_append, List.length_replicate]
          omega
        · intro g hg
          rcases List.mem_append.mp hg with hg1 | hg2
          · rcases List.mem_append.mp hg1 with hg3 | hg4
            · exact parseHextets_lt hhi g hg3
            · rw [List.eq_of_mem_replicate hg4]
              norm_num
          · exact parseTailHextets_lt hlo g hg2
      · exact Option.noConfusion h
    · exact Option.noConfusion h

theorem v6NoCompress_lt {parts : List (List Char)} {v : Nat}
    (h : v6NoCompress parts = some v) :
    v < 340282366920938463463374607431768211456 := by
  unfold v6NoCompress at h
  split at h
  · exact Option.noConfusion h
  · split at h
    · rename_i gs hgs
      split at h
      · rename_i h8
        injection h with h2
        subst h2
        exact combine16_lt h8 (parseTailHextets_lt hgs)
      · exact Option.noConfusion h
    · exact Option.noConfusion h

theorem parseV6_lt {l : List Char} {v : Nat} (h : parseV6 l = some v) :
    v < 340282366920938463463374607431768211456 := by
  unfold parseV6 at h
  split at h
  · exact v6OfParts_lt h
  · exact v6NoCompress_lt h

theorem hexStr4_roundtrip (g : Nat) (hg : g < 65536) :
    parseHextet (hexStr4 g) = some g := by
  have h3 := hexDigitVal_hexChar (g / 4096 % 16) (Nat.mod_lt _ (by norm_num))
  have h2 := hexDigitVal_hexChar (g / 256 % 16) (Nat.mod_lt _ (by norm_num))
  have h1 := hexDigitVal_hexChar (g / 16 % 16) (Nat.mod_lt _ (by norm_num))
  have h0 := hexDigitVal_hexChar (g % 16) (Nat.mod_lt _ (by norm_num))
  simp only [parseHextet, hexStr4, hexDigits, h3, h2, h1, h0]
  congr 1
  omega

theorem hexStr4_chars (g : Nat) : ∀ c ∈ hexStr4 g, c ≠ '/' ∧ c ≠ ':' ∧ c ≠ '.' := by
  intro c hc
  unfold hexStr4 at hc
  simp only [List.mem_cons, List.not_mem_nil, or_false] at hc
  rcases hc with rfl | rfl | rfl | rfl <;> exact hexChar_ne_sep _

theorem fdc_cons_none {c : Char} {t : List Char} (hc : c ≠ ':')
    (ht : findDoubleColon t = none) : findDoubleColon (c :: t) = none := by
  cases t with
  | nil => rfl
  | cons d t2 =>
    unfold findDoubleColon
    rw [if_neg (fun hh => hc hh.1), ht]
    rfl

theorem fdc_colon_cons_none {t : List Char} (ht : findDoubleColon t = none)
    (hh : t.headD 'x' ≠ ':') : findDoubleColon (':' :: t) = none := by
  cases t with
  | nil => rfl
  | cons d t2 =>
    unfold findDoubleColon
    rw [if_neg (fun hc => hh hc.2), ht]
    rfl

theorem fdc_block_none : ∀ {B : List Char}, (∀ c ∈ B, c ≠ ':') →
    findDoubleColon B = none := by
  intro B
  induction B with
  | nil => intro _; rfl
  | cons c t ih =>
    intro h
    exact fdc_cons_none (h c (List.mem_cons_self c t))
      (ih (fun x hx => h x (List.mem_cons_of_mem c hx)))

theorem fdc_append_none : ∀ {B : List Char}, (∀ c ∈ B, c ≠ ':') →
    ∀ {rest : List Char}, findDoubleColon rest = none → rest.headD 'x' ≠ ':' →
    findDoubleColon (B ++ ':' :: rest) = none := by
  intro B
  induction B with
  | nil =>
    intro _ rest ht hh
    exact fdc_colon_cons_none ht hh
  | cons c B2 ih =>
    intro h rest ht hh
    show findDoubleColon (c :: (B2 ++ ':' :: rest)) = none
    exact fdc_cons_none (h c (List.mem_cons_self c B2))
      (ih (fun x hx => h x (List.mem_cons_of_mem c hx)) ht hh)

theorem hexStr4_headD_append (g : Nat) (r : List Char) :
    (hexStr4 g ++ r).headD 'x' = hexChar (g / 4096 % 16) := rfl

theorem hexStr4_no_dot (g : Nat) : (hexStr4 g).contains '.' = false := by
  have hne : ∀ m : Nat, ('.' == hexChar m) = false :=
    fun m => beq_eq_false_iff_ne.mpr (fun he => (hexChar_ne_sep m).2.2 he.symm)
  simp [hexStr4, List.contains, List.elem, hne]

theorem parseHextet_nil_beq {B : List Char} {g : Nat} (h : parseHextet B = some g) :
    (([] : List Char) == B) = false := by
  cases B with
  | nil => exact absurd h (by simp [parseHextet, hexDigits])
  | cons c t => exact beq_eq_false_iff_ne.mpr (by simp)

theorem v6NoCompress_8 {B7 B6 B5 B4 B3 B2 B1 B0 : List Char}
    {g7 g6 g5 g4 g3 g2 g1 g0 : Nat}
    (h7 : parseHextet B7 = some g7) (h6 : parseHextet B6 = some g6)
    (h5 : parseHextet B5 = some g5) (h4 : parseHextet B4 = some g4)
    (h3 : parseHextet B3 = some g3) (h2 : parseHextet B2 = some g2)
    (h1 : parseHextet B1 = some g1) (h0 : parseHextet B0 = some g0)
    (h0d : B0.contains '.' = false) :
    v6NoCompress [B7, B6, B5, B4, B3, B2, B1, B0] =
      some (combine16 [g7, g6, g5, g4, g3, g2, g1, g0]) := by
  have hcont : ([B7, B6, B5, B4, B3, B2, B1, B0] : List (List Char)).contains [] = false := by
    simp only [List.contains, List.elem, parseHextet_nil_beq h7, parseHextet_nil_beq h6,
      parseHextet_nil_beq h5, parseHextet_nil_beq h4, parseHextet_nil_beq h3,
      parseHextet_nil_beq h2, parseHextet_nil_beq h1, parseHextet_nil_beq h0,
      Bool.or_false]
  have htail : parseTailHextets [B7, B6, B5, B4, B3, B2, B1, B0]
      = some [g7, g6, g5, g4, g3, g2, g1, g0] := by
    simp only [parseTailHextets, h7, h6, h5, h4, h3, h2, h1, h0, h0d,
      Bool.false_eq_true, if_false]
  unfold v6NoCompress
  rw [if_neg (fun hh => Bool.noConfusion (hcont.symm.trans hh)), htail]
  rfl

theorem renderV6_data (v : Nat) : (renderV6 v).data =
    hexStr4 (v / 5192296858534827628530496329220096 % 65536) ++ ':' ::
    (hexStr4 (v / 79228162514264337593543950336 % 65536) ++ ':' ::
    (hexStr4 (v / 1208925819614629174706176 % 65536) ++ ':' ::
    (hexStr4 (v / 18446744073709551616 % 65536) ++ ':' ::
    (hexStr4 (v / 281474976710656 % 65536) ++ ':' ::
    (hexStr4 (v / 4294967296 % 65536) ++ ':' ::
    (hexStr4 (v / 65536 % 65536) ++ ':' :: hexStr4 (v % 65536))))))) := rfl

theorem renderV6_no_colon_char (v : Nat) :
    ∀ c ∈ (renderV6 v).data, c ≠ '/' ∧ c ≠ '.' := by
  intro c hc
  rw [renderV6_data] at hc
  simp only [List.mem_append, List.mem_cons] at hc
  rcases hc with h|h|h|h|h|h|h|h|h|h|h|h|h|h|h
  all_goals first
    | exact ⟨(hexStr4_chars _ c h).1, (hexStr4_chars _ c h).2.2⟩
    | (subst h; exact ⟨by decide, by decide⟩)

theorem parseV6_renderV6 (v : Nat)
    (hv : v < 340282366920938463463374607431768211456) :
    parseV6 (renderV6 v).data = some v := by
  have hb : ∀ (g : Nat), ∀ c ∈ hexStr4 g, c ≠ ':' :=
    fun g c hc => ((hexStr4_chars g c hc).2).1
  have hnm : ∀ g : Nat, ':' ∉ hexStr4 g := fun g hm => hb g ':' hm rfl
  have hhd : ∀ (g : Nat) (r : List Char), (hexStr4 g ++ r).headD 'x' ≠ ':' := by
    intro g r
    rw [hexStr4_headD_append]
    exact ((hexChar_ne_sep _).2).1
  have hhd0 : ∀ g : Nat, (hexStr4 g).headD 'x' ≠ ':' := by
    intro g
    show (hexChar (g / 4096 % 16) :: _).headD 'x' ≠ ':'
    exact ((hexChar_ne_sep _).2).1
  have hfdc : findDoubleColon (renderV6 v).data = none := by
    rw [renderV6_data]
    refine fdc_append_none (hb _) ?_ (hhd _ _)
    refine fdc_append_none (hb _) ?_ (hhd _ _)
    refine fdc_append_none (hb _) ?_ (hhd _ _)
    refine fdc_append_none (hb _) ?_ (hhd _ _)
    refine fdc_append_none (hb _) ?_ (hhd _ _)
    refine fdc_append_none (hb _) ?_ (hhd _ _)
    refine fdc_append_none (hb _) (fdc_block_none (hb _)) (hhd0 _)
  have hsplit : splitCh ':' (renderV6 v).data =
      [hexStr4 (v / 5192296858534827628530496329220096 % 65536),
       hexStr4 (v / 79228162514264337593543950336 % 65536),
       hexStr4 (v / 1208925819614629174706176 % 65536),
       hexStr4 (v / 18446744073709551616 % 65536),
       hexStr4 (v / 281474976710656 % 65536),
       hexStr4 (v / 4294967296 % 65536),
       hexStr4 (v / 65536 % 65536), hexStr4 (v % 65536)] := by
    rw [renderV6_data, splitCh_append _ (hnm _), splitCh_append _ (hnm _),
      splitCh_append _ (hnm _), splitCh_append _ (hnm _), splitCh_append _ (hnm _),
      splitCh_append _ (hnm _), splitCh_append _ (hnm _), splitCh_not_mem (hnm _)]
  have hr7 := hexStr4_roundtrip (v / 5192296858534827628530496329220096 % 65536)
    (Nat.mod_lt _ (by norm_num))
  have hr6 := hexStr4_roundtrip (v / 79228162514264337593543950336 % 65536)
    (Nat.mod_lt _ (by norm_num))
  have hr5 := hexStr4_roundtrip (v / 1208925819614629174706176 % 65536)
    (Nat.mod_lt _ (by norm_num))
  have hr4 := hexStr4_roundtrip (v / 18446744073709551616 % 65536)
    (Nat.mod_lt _ (by norm_num))
  have hr3 := hexStr4_roundtrip (v / 281474976710656 % 65536)
    (Nat.mod_lt _ (by norm_num))
  have hr2 := hexStr4_roundtrip (v / 4294967296 % 65536)
    (Nat.mod_lt _ (by norm_num))
  have hr1 := hexStr4_roundtrip (v / 65536 % 65536) (Nat.mod_lt _ (by norm_num))
  have hr0 := hexStr4_roundtrip (v % 65536) (Nat.mod_lt _ (by norm_num))
  unfold parseV6
  simp only [hfdc, hsplit]
  rw [v6NoCompress_8 hr7 hr6 hr5 hr4 hr3 hr2 hr1 hr0 (hexStr4_no_dot _)]
  congr 1
  simp only [combine16, List.foldl]
  omega

theorem parseV4_no_dot {l : List Char} (h : '.' ∉ l) : parseV4 l = none := by
  unfold parseV4
  rw [splitCh_not_mem h]

theorem parse_netStr6 (m n : Nat)
    (hm : m < 340282366920938463463374607431768211456) (hn : n ≤ 128) :
    ip_network_strictFalse (netStr (.n6 m n)) = some (.n6 (maskAddr 128 m n) n) := by
  have hp := plen_digits_roundtrip n (by omega)
  have hslash : '/' ∉ (renderV6 m).data :=
    fun hmem => (renderV6_no_colon_char m '/' hmem).1 rfl
  have hdot : '.' ∉ (renderV6 m).data :=
    fun hmem => (renderV6_no_colon_char m '.' hmem).2 rfl
  have hdata : (netStr (IPNet.n6 m n)).data
      = (renderV6 m).data ++ '/' :: (toString n).data := by
    simp [netStr, String.data_append, List.append_assoc]
  have hsplit : splitCh '/' (netStr (IPNet.n6 m n)).data
      = (renderV6 m).data :: [(toString n).data] := by
    rw [hdata, splitCh_append _ hslash,
      splitCh_not_mem (dot_slash_not_mem hp.2.2).2]
  unfold ip_network_strictFalse
  rw [hsplit]
  simp only [parseV4_no_dot hdot, parseV6_renderV6 m hm,
    parseMask_digits 128 parseV6 n hn (by norm_num)]

theorem parse_shape4 {s : String} {v n : Nat}
    (h : ip_network_strictFalse s = some (.n4 v n)) :
    v < 4294967296 ∧ maskAddr 32 v n = v ∧ n ≤ 32 := by
  unfold ip_network_strictFalse at h
  split at h
  · rename_i a heq
    rcases h4 : parseV4 a with _ | v0
    · simp only [h4] at h
      rcases h6 : parseV6 a with _ | v0
      · simp only [h6] at h
        exact Option.noConfusion h
      · simp only [h6] at h
        injection h with h2
        exact IPNet.noConfusion h2
    · simp only [h4] at h
      injection h with h2
      injection h2 with hv hn
      subst hv
      subst hn
      exact ⟨parseV4_lt h4, maskAddr_full 32 v0, Nat.le_refl 32⟩
  · rename_i a p heq
    rcases h4 : parseV4 a with _ | v0
    · simp only [h4] at h
      rcases h6 : parseV6 a with _ | v0
      · simp only [h6] at h
        exact Option.noConfusion h
      · simp only [h6] at h
        rcases hm : parseMask 128 parseV6 p with _ | n0
        · simp only [hm] at h
          exact Option.noConfusion h
        · simp only [hm] at h
          injection h with h2
          exact IPNet.noConfusion h2
    · simp only [h4] at h
      rcases hm : parseMask 32 parseV4 p with _ | n0
      · simp only [hm] at h
        exact Option.noConfusion h
      · simp only [hm] at h
        injection h with h2
        injection h2 with hv hn
        subst hn
        refine ⟨?_, ?_, parseMask_le hm⟩
        · rw [← hv]
          exact lt_of_le_of_lt (maskAddr_le 32 v0 n0) (parseV4_lt h4)
        · rw [← hv]
          exact maskAddr_idem 32 v0 n0
  · exact Option.noConfusion h

theorem parse_shape6 {s : String} {v n : Nat}
    (h : ip_network_strictFalse s = some (.n6 v n)) :
    v < 340282366920938463463374607431768211456 ∧ maskAddr 128 v n = v ∧ n ≤ 128 := by
  unfold ip_network_strictFalse at h
  split at h
  · rename_i a heq
    rcases h4 : parseV4 a with _ | v0
    · simp only [h4] at h
      rcases h6 : parseV6 a with _ | v0
      · simp only [h6] at h
        exact Option.noConfusion h
      · simp only [h6] at h
        injection h with h2
        injection h2 with hv hn
        subst hv
        subst hn
        exact ⟨parseV6_lt h6, maskAddr_full 128 v0, Nat.le_refl 128⟩
    · simp only [h4] at h
      injection h with h2
      exact IPNet.noConfusion h2
  · rename_i a p heq
    rcases h4 : parseV4 a with _ | v0
    · simp only [h4] at h
      rcases h6 : parseV6 a with _ | v0
      · simp only [h6] at h
        exact Option.noConfusion h
      · simp only [h6] at h
        rcases hm : parseMask 128 parseV6 p with _ | n0
        · simp only [hm] at h
          exact Option.noConfusion h
        · simp only [hm] at h
          injection h with h2
          injection h2 with hv hn
          subst hn
          refine ⟨?_, ?_, parseMask_le hm⟩
          · rw [← hv]
            exact lt_of_le_of_lt (maskAddr_le 128 v0 n0) (parseV6_lt h6)
          · rw [← hv]
            exact maskAddr_idem 128 v0 n0
    · simp only [h4] at h
      rcases hm : parseMask 32 parseV4 p with _ | n0
      · simp only [hm] at h
        exact Option.noConfusion h
      · simp only [hm] at h
        injection h with h2
        exact IPNet.noConfusion h2
  · exact Option.noConfusion h

/-- C9: `Subnet.clean` normalization is idempotent — normalizing the
canonical output again returns it unchanged, for IPv4 and IPv6 networks
alike — and unparsable text fails with a `ValidationError` instead.
(The `ipaddress.ip_network` call is standard-library code outside this
repository, modelled for dotted-quad IPv4 and hextet IPv6 CIDR texts
with decimal, netmask or hostmask prefixes.) -/
theorem subnet_clean_idempotent (t res : String) (h : Subnet_clean t = .ok res) :
    Subnet_clean res = .ok res ∧
    (∀ s : String, ip_network_strictFalse s = none →
      Subnet_clean s = .error "Invalid network format.") := by
  constructor
  · unfold Subnet_clean at h
    split at h
    · rename_i net heq
      injection h with h2
      subst h2
      unfold Subnet_clean
      cases net with
      | n4 v n =>
        have hs := parse_shape4 heq
        have hparse : ip_network_strictFalse (netStr (.n4 v n)) = some (.n4 v n) := by
          have hx := parse_netStr4 v n hs.1 hs.2.2
          rw [hs.2.1] at hx
          exact hx
        rw [hparse]
      | n6 v n =>
        have hs := parse_shape6 heq
        have hparse : ip_network_strictFalse (netStr (.n6 v n)) = some (.n6 v n) := by
          have hx := parse_netStr6 v n hs.1 hs.2.2
          rw [hs.2.1] at hx
          exact hx
        rw [hparse]
    · exact Except.noConfusion h
  · intro s hs
    unfold Subnet_clean
    rw [hs]

theorem subnet_clean_idempotent_witness :
    Subnet_clean "10.0.1.0/22" = .ok "10.0.0.0/22" ∧
    Subnet_clean "10.0.0.0/22" = .ok "10.0.0.0/22" ∧
    Subnet_clean "10.0.1.0/255.255.252.0" = .ok "10.0.0.0/22" ∧
    Subnet_clean "2001:db8::1/64"
      = .ok "2001:0db8:0000:0000:0000:0000:0000:0000/64" ∧
    Subnet_clean "2001:0db8:0000:0000:0000:0000:0000:0000/64"
      = .ok "2001:0db8:0000:0000:0000:0000:0000:0000/64" :=
  ⟨rfl, (subnet_clean_idempotent "10.0.1.0/22" "10.0.0.0/22" rfl).1, rfl, rfl,
   (subnet_clean_idempotent "2001:db8::1/64"
     "2001:0db8:0000:0000:0000:0000:0000:0000/64" rfl).1⟩

theorem find?_pk_of_mem {l : List IPRow} {t : IPRow}
    (hinj : ∀ r1 ∈ l, ∀ r2 ∈ l, r1.pk = r2.pk → r1 = r2) (hm : t ∈ l) :
    l.find? (fun r => r.pk == t.pk) = some t := by
  induction l with
  | nil => exact absurd hm (List.not_mem_nil t)
  | cons a l2 ih =>
    by_cases ha : (a.pk == t.pk) = true
    · have hae : a = t :=
        hinj a (List.mem_cons_self a l2) t hm (beq_iff_eq.mp ha)
      rw [show List.find? (fun r => r.pk == t.pk) (a :: l2) = some a from
        List.find?_cons_of_pos l2 ha, hae]
    · rw [show List.find? (fun r => r.pk == t.pk) (a :: l2)
          = List.find? (fun r => r.pk == t.pk) l2 from List.find?_cons_of_neg l2 ha]
      rcases List.mem_cons.mp hm with rfl | hm2
      · exact absurd (beq_iff_eq.mpr rfl) ha
      · exact ih (fun r1 h1 r2 h2 he =>
          hinj r1 (List.mem_cons_of_mem a h1) r2 (List.mem_cons_of_mem a h2) he) hm2

theorem getHost_rename {hosts : List HostRow} {hpk : Nat} {old new : String}
    (h : hosts.find? (fun x => x.pk == hpk) = some { pk := hpk, name := old }) :
    (hosts.map (fun x => if x.pk == hpk then { x with name := new } else x)).find?
      (fun x => x.pk == hpk) = some { pk := hpk, name := new } := by
  induction hosts with
  | nil => exact Option.noConfusion h
  | cons a t ih =>
    by_cases ha : (a.pk == hpk) = true
    · rw [show List.find? (fun x => x.pk == hpk) (a :: t) = some a from
        List.find?_cons_of_pos t ha] at h
      injection h with h2
      subst h2
      simp only [List.map_cons, if_pos ha]
      exact List.find?_cons_of_pos _ (by simp)
    · rw [show List.find? (fun x => x.pk == hpk) (a :: t)
          = List.find? (fun x => x.pk == hpk) t from List.find?_cons_of_neg t ha] at h
      simp only [List.map_cons, if_neg ha]
      rw [show List.find? (fun x => x.pk == hpk)
            (a :: t.map (fun x => if x.pk == hpk then { x with name := new } else x))
          = List.find? (fun x => x.pk == hpk)
            (t.map (fun x => if x.pk == hpk then { x with name := new } else x)) from
        List.find?_cons_of_neg _ ha]
      exact ih h

theorem nextPk_bound (db : DB) : ∀ r ∈ db.ips, r.pk < nextPk db := by
  have haux : ∀ (l : List IPRow) (r : IPRow), r ∈ l →
      r.pk ≤ l.foldr (fun x m => max x.pk m) 0 := by
    intro l
    induction l with
    | nil => intro r h; exact absurd h (List.not_mem_nil r)
    | cons a t ih =>
      intro r h
      rcases List.mem_cons.mp h with rfl | h2
      · exact le_max_left _ _
      · exact le_trans (ih r h2) (le_max_right _ _)
  intro r hr
  have := haux db.ips r hr
  unfold nextPk
  omega

theorem slower_length (s : String) : (slower s).length = s.length := by
  show (s.data.map lc).length = s.data.length
  exact List.length_map _ _

theorem slower_ne_of_length {a b : String} (h : a.length ≠ b.length) :
    slower a ≠ slower b := fun he =>
  h (by rw [← slower_length a, ← slower_length b, he])

theorem length_pos_of_ne_empty {s : String} (h : s ≠ "") : 0 < s.length := by
  rcases s with ⟨l⟩
  cases l with
  | nil => exact absurd rfl h
  | cons c t => simp [String.length]

theorem ipFqdn_iface_ne_hostFqdn {root hn : String} {iface : Option String}
    (h : (ifaceVal iface).isSome) :
    slower (ipFqdn root hn iface) ≠ slower (hostFqdn root hn) := by
  rcases iface with _ | s
  · exact absurd h (by simp [ifaceVal])
  · by_cases hs : s = ""
    · exact absurd h (by simp [ifaceVal, hs])
    · apply slower_ne_of_length
      have hfq : ipFqdn root hn (some s) = s ++ "." ++ hn ++ "." ++ root := by
        simp [ipFqdn, ifaceVal, hs]
      rw [hfq]
      unfold hostFqdn
      simp only [String.length_append]
      have := length_pos_of_ne_empty hs
      omega

theorem fwdType_cases (ip : IPAddr) : fwdType ip = "A" ∨ fwdType ip = "AAAA" := by
  cases ip with
  | v4 a b c d => exact Or.inl rfl
  | v6 nibs => exact Or.inr rfl

theorem fwdType_notDom (ip : IPAddr) :
    ((fwdType ip == "PTR") || (fwdType ip == "CNAME")) = false := by
  cases ip <;> rfl

theorem mem_getOrCreateFwd_eq {dom nm ty ct : String} {l : List Record} {r : Record}
    (h : r ∈ getOrCreateFwd dom nm ty ct l) :
    r ∈ l ∨ r = { domain := dom, name := nm, type := ty, content := ct, auth := true } := by
  unfold getOrCreateFwd at h
  split at h
  · exact Or.inl h
  · rcases List.mem_append.mp h with h2 | h2
    · exact Or.inl h2
    · exact Or.inr (List.mem_singleton.mp h2)

theorem mem_getOrCreatePatch_eq {dom nm ty ct : String} {l : List Record} {r : Record}
    (h : r ∈ getOrCreatePatch dom nm ty ct l) :
    r ∈ l ∨ r = { domain := dom, name := nm, type := ty, content := ct, auth := true } ∨
      ∃ r0, r0 ∈ l ∧ r = { r0 with content := ct } := by
  unfold getOrCreatePatch at h
  split at h
  · rcases mem_patchFirst h with h2 | ⟨r0, hr0, hp0, he⟩
    · exact Or.inl h2
    · exact Or.inr (Or.inr ⟨r0, hr0, he⟩)
  · rcases List.mem_append.mp h with h2 | h2
    · exact Or.inl h2
    · exact Or.inr (Or.inl (List.mem_singleton.mp h2))

theorem mem_patchFirst_of_not_pred {p : Record → Bool} {ct : String} :
    ∀ {l : List Record} {r : Record}, r ∈ l → p r = false → r ∈ patchFirst p ct l := by
  intro l
  induction l with
  | nil => intro r h _; exact absurd h (List.not_mem_nil r)
  | cons a t ih =>
    intro r h hpr
    unfold patchFirst
    by_cases hpa : p a = true
    · rw [if_pos hpa]
      rcases List.mem_cons.mp h with rfl | h2
      · exact absurd hpa (by simp [hpr])
      · exact List.mem_cons_of_mem _ h2
    · rw [if_neg hpa]
      rcases List.mem_cons.mp h with rfl | h2
      · exact List.mem_cons_self _ _
      · exact List.mem_cons_of_mem _ (ih h2 hpr)

theorem patchFirst_mem_patched {p : Record → Bool} (ct : String) :
    ∀ {l : List Record}, l.any p = true →
      ∃ r0, r0 ∈ l ∧ p r0 = true ∧ { r0 with content := ct } ∈ patchFirst p ct l := by
  intro l
  induction l with
  | nil => intro h; simp at h
  | cons a t ih =>
    intro h
    by_cases hpa : p a = true
    · refine ⟨a, List.mem_cons_self a t, hpa, ?_⟩
      unfold patchFirst
      rw [if_pos hpa]
      exact List.mem_cons_self _ _
    · have h2 : t.any p = true := by
        rcases List.any_eq_true.mp h with ⟨x, hx, hpx⟩
        rcases List.mem_cons.mp hx with rfl | hx2
        · exact absurd hpx hpa
        · exact List.any_eq_true.mpr ⟨x, hx2, hpx⟩
      rcases ih h2 with ⟨r0, hr0, hp0, hmem⟩
      refine ⟨r0, List.mem_cons_of_mem a hr0, hp0, ?_⟩
      unfold patchFirst
      rw [if_neg hpa]
      exact List.mem_cons_of_mem a hmem

theorem hasRec_mono {dom nm ty ct : String} {l1 l2 : List Record}
    (hsub : ∀ r, r ∈ l1 → r.domain = dom → r.name = nm → r.type = ty →
      r.content = ct → r ∈ l2)
    (h : hasRec dom nm ty ct l1 = true) : hasRec dom nm ty ct l2 = true := by
  rcases List.any_eq_true.mp h with ⟨r, hr, hp⟩
  simp only [Bool.and_eq_true, beq_iff_eq] at hp
  obtain ⟨⟨⟨hdom, hnm⟩, hty⟩, hct⟩ := hp
  exact List.any_eq_true.mpr
    ⟨r, hsub r hr hdom hnm hty hct, by simp [hdom, hnm, hty, hct]⟩

theorem hasRec_filter {dom nm ty ct : String} {p : Record → Bool} {l : List Record}
    (hp : ∀ r ∈ l, r.domain = dom → r.name = nm → r.type = ty → r.content = ct →
      p r = true)
    (h : hasRec dom nm ty ct l = true) : hasRec dom nm ty ct (l.filter p) = true :=
  hasRec_mono (fun r hr h1 h2 h3 h4 => List.mem_filter.mpr ⟨hr, hp r hr h1 h2 h3 h4⟩) h

theorem hasRec_getOrCreateFwd {dom nm ty ct d2 n2 t2 c2 : String} {l : List Record}
    (h : hasRec dom nm ty ct l = true) :
    hasRec dom nm ty ct (getOrCreateFwd d2 n2 t2 c2 l) = true := by
  unfold getOrCreateFwd
  split
  · exact h
  · exact hasRec_mono (fun r hr _ _ _ _ => List.mem_append_left _ hr) h

theorem hasRec_getOrCreatePatch_of_ne {dom nm ty ct d2 n2 t2 c2 : String}
    {l : List Record} (hne : ty ≠ t2 ∨ nm ≠ n2)
    (h : hasRec dom nm ty ct l = true) :
    hasRec dom nm ty ct (getOrCreatePatch d2 n2 t2 c2 l) = true := by
  unfold getOrCreatePatch
  split
  · refine hasRec_mono (fun r hr h1 h2 h3 h4 => ?_) h
    apply mem_patchFirst_of_not_pred hr
    rcases hne with hne | hne
    · simp [h3, beq_eq_false_iff_ne.mpr hne]
    · simp [h2, beq_eq_false_iff_ne.mpr hne]
  · exact hasRec_mono (fun r hr _ _ _ _ => List.mem_append_left _ hr) h

theorem exists_getOrCreateFwd (dom nm ty ct : String) (l : List Record) :
    hasRec dom nm ty ct (getOrCreateFwd dom nm ty ct l) = true := by
  unfold getOrCreateFwd
  split
  · rename_i r0 hr0
    have hp := List.find?_some hr0
    have hm := List.mem_of_find?_eq_some hr0
    apply List.any_eq_true.mpr
    refine ⟨r0, hm, ?_⟩
    simp only [Bool.and_eq_true, beq_iff_eq] at hp ⊢
    obtain ⟨⟨⟨hty, hnm⟩, hdom⟩, hct⟩ := hp
    exact ⟨⟨⟨hdom, hnm⟩, hty⟩, hct⟩
  · apply List.any_eq_true.mpr
    refine ⟨{ domain := dom, name := nm, type := ty, content := ct, auth := true },
      List.mem_append.mpr (Or.inr (List.mem_singleton.mpr rfl)), by simp⟩

theorem exists_getOrCreatePatch (dom nm ty ct : String) (l : List Record) :
    hasRec dom nm ty ct (getOrCreatePatch dom nm ty ct l) = true := by
  unfold getOrCreatePatch
  split
  · rename_i hany
    rcases patchFirst_mem_patched ct hany with ⟨r0, hr0, hp0, hmem⟩
    simp only [Bool.and_eq_true, beq_iff_eq] at hp0
    obtain ⟨⟨hty, hnm⟩, hdom⟩ := hp0
    apply List.any_eq_true.mpr
    refine ⟨{ r0 with content := ct }, hmem, by simp [hdom, hnm, hty]⟩
  · apply List.any_eq_true.mpr
    refine ⟨{ domain := dom, name := nm, type := ty, content := ct, auth := true },
      List.mem_append.mpr (Or.inr (List.mem_singleton.mpr rfl)), by simp⟩

theorem hasRec_ptrStep {dom nm ty ct root hname : String} {t : IPRow}
    {doms : List String} {l : List Record}
    (hne : ty ≠ "PTR" ∨ nm ≠ IPAddress_generate_ptr t.ip false)
    (h : hasRec dom nm ty ct l = true) :
    hasRec dom nm ty ct (ptrStep root hname t doms l) = true := by
  unfold ptrStep
  split
  · exact hasRec_getOrCreatePatch_of_ne hne h
  · exact h

theorem hasRec_cnameStep {dom nm ty ct root hname : String} {t : IPRow}
    {l : List Record}
    (hne : ty ≠ "CNAME" ∨ nm ≠ slower (hostFqdn root hname))
    (h : hasRec dom nm ty ct l = true) :
    hasRec dom nm ty ct (cnameStep root hname t l) = true := by
  unfold cnameStep
  split
  · exact hasRec_getOrCreatePatch_of_ne hne h
  · exact h

theorem delPred_fields (root hname : String) (t : IPRow) (r1 r2 : Record)
    (hn : r1.name = r2.name) (ht : r1.type = r2.type) (hc : r1.content = r2.content) :
    delPred root hname t r1 = delPred root hname t r2 := by
  unfold delPred fwdDelPred cnameDelPred ptrDelPred
  rw [hn, ht, hc]

theorem hasRec_delRecs {dom nm ty ct root hname : String} {t : IPRow}
    {l : List Record}
    (hsafe : delPred root hname t
      { domain := dom, name := nm, type := ty, content := ct, auth := true } = false)
    (h : hasRec dom nm ty ct l = true) :
    hasRec dom nm ty ct (delRecs root hname t l) = true := by
  refine hasRec_filter (fun r hr h1 h2 h3 h4 => ?_) h
  have he : delPred root hname t r = false := by
    rw [delPred_fields root hname t r
      { domain := dom, name := nm, type := ty, content := ct, auth := true } h2 h3 h4]
    exact hsafe
  simp [he]

theorem oldRef_false_of_parts {root old : String} {rows : List IPRow} {r : Record}
    (hn : oldRefStr root old rows r.name = false)
    (hc : oldRefStr root old rows r.content = false) :
    oldRef root old rows r = false := by
  unfold oldRef
  rw [hn, hc]
  simp

theorem oldRef_false_of_name_type {root old : String} {rows : List IPRow} {r : Record}
    (hn : oldRefStr root old rows r.name = false)
    (hty : ((r.type == "PTR") || (r.type == "CNAME")) = false) :
    oldRef root old rows r = false := by
  unfold oldRef
  rw [hn, hty]
  simp

theorem oldRef_name_false {root old : String} {rows : List IPRow} {r : Record}
    (h : oldRef root old rows r = false) : oldRefStr root old rows r.name = false := by
  unfold oldRef at h
  cases hn : oldRefStr root old rows r.name with
  | false => rfl
  | true =>
    rw [hn] at h
    simp at h

theorem noOldRefs_addRecs (root old hname : String) (rowsOld : List IPRow) (t : IPRow)
    (doms : List String) {recs : List Record}
    (hP : ∀ r ∈ recs, oldRef root old rowsOld r = false)
    (hfq : oldRefStr root old rowsOld (slower (ipFqdn root hname t.interface)) = false)
    (hptr : oldRefStr root old rowsOld (IPAddress_generate_ptr t.ip false) = false)
    (hhost : oldRefStr root old rowsOld (slower (hostFqdn root hname)) = false) :
    ∀ r ∈ addRecs root hname t doms recs, oldRef root old rowsOld r = false := by
  have hfwd : ∀ x ∈ fwdStep root hname t recs, oldRef root old rowsOld x = false := by
    intro x hx
    unfold fwdStep at hx
    rcases mem_getOrCreateFwd_eq hx with h2 | h2
    · exact hP x h2
    · subst h2
      exact oldRef_false_of_name_type hfq (fwdType_notDom t.ip)
  have hptrOut : ∀ x ∈ ptrStep root hname t doms (fwdStep root hname t recs),
      oldRef root old rowsOld x = false := by
    intro x hx
    unfold ptrStep at hx
    split at hx
    · rcases mem_getOrCreatePatch_eq hx with h2 | h2 | ⟨r0, hr0, he⟩
      · exact hfwd x h2
      · subst h2
        exact oldRef_false_of_parts hptr hfq
      · subst he
        have hn0 := oldRef_name_false (hfwd r0 hr0)
        exact oldRef_false_of_parts hn0 hfq
    · exact hfwd x hx
  intro r hr
  unfold addRecs cnameStep at hr
  split at hr
  · rcases mem_getOrCreatePatch_eq hr with h2 | h2 | ⟨r0, hr0, he⟩
    · exact hptrOut r h2
    · subst h2
      exact oldRef_false_of_parts hhost hfq
    · subst he
      have hn0 := oldRef_name_false (hptrOut r0 hr0)
      exact oldRef_false_of_parts hn0 hfq
  · exact hptrOut r hr

theorem filtered_dup_false (t : IPRow) (cur : DB) (hmem : t ∈ cur.ips)
    (hipinj : ∀ r1 ∈ cur.ips, ∀ r2 ∈ cur.ips, r1.ip = r2.ip → r1 = r2) :
    (cur.ips.filter (fun x => !(some x.pk == some t.pk))).any
      (fun r => r.ip == t.ip) = false := by
  rw [List.any_eq_false]
  intro x hx hbeq
  have hxm := List.mem_filter.mp hx
  have hxe : x = t := hipinj x hxm.1 t hmem (beq_iff_eq.mp hbeq)
  subst hxe
  have hpk := hxm.2
  simp at hpk

theorem step_ips_pkinj {ips : List IPRow} {t : IPRow} {npk : Nat}
    (hpkinj : ∀ r1 ∈ ips, ∀ r2 ∈ ips, r1.pk = r2.pk → r1 = r2)
    (hbound : ∀ x ∈ ips, x.pk ≠ t.pk → x.pk < npk)
    (row : IPRow) (hrow : row.pk = npk) :
    ∀ r1 ∈ ips.filter (fun x => !(some x.pk == some t.pk)) ++ [row],
    ∀ r2 ∈ ips.filter (fun x => !(some x.pk == some t.pk)) ++ [row],
      r1.pk = r2.pk → r1 = r2 := by
  have hfne : ∀ x ∈ ips.filter (fun x => !(some x.pk == some t.pk)), x.pk ≠ t.pk := by
    intro x hx hh
    have := (List.mem_filter.mp hx).2
    simp [hh] at this
  intro r1 h1 r2 h2 he
  rcases List.mem_append.mp h1 with h1 | h1 <;> rcases List.mem_append.mp h2 with h2 | h2
  · exact hpkinj r1 (List.mem_filter.mp h1).1 r2 (List.mem_filter.mp h2).1 he
  · have hb := hbound r1 (List.mem_filter.mp h1).1 (hfne r1 h1)
    rw [List.mem_singleton.mp h2, hrow] at he
    exact absurd he (by omega)
  · have hb := hbound r2 (List.mem_filter.mp h2).1 (hfne r2 h2)
    rw [List.mem_singleton.mp h1, hrow] at he
    exact absurd he.symm (by omega)
  · rw [List.mem_singleton.mp h1, List.mem_singleton.mp h2]

theorem step_ips_ipinj {ips : List IPRow} {t : IPRow}
    (hipinj : ∀ r1 ∈ ips, ∀ r2 ∈ ips, r1.ip = r2.ip → r1 = r2)
    (hmem : t ∈ ips)
    (row : IPRow) (hrow : row.ip = t.ip) :
    ∀ r1 ∈ ips.filter (fun x => !(some x.pk == some t.pk)) ++ [row],
    ∀ r2 ∈ ips.filter (fun x => !(some x.pk == some t.pk)) ++ [row],
      r1.ip = r2.ip → r1 = r2 := by
  have hfno : ∀ x ∈ ips.filter (fun x => !(some x.pk == some t.pk)), x.ip ≠ t.ip := by
    intro x hx hh
    have hxm := List.mem_filter.mp hx
    have hxe : x = t := hipinj x hxm.1 t hmem hh
    subst hxe
    have := hxm.2
    simp at this
  intro r1 h1 r2 h2 he
  rcases List.mem_append.mp h1 with h1 | h1 <;> rcases List.mem_append.mp h2 with h2 | h2
  · exact hipinj r1 (List.mem_filter.mp h1).1 r2 (List.mem_filter.mp h2).1 he
  · rw [List.mem_singleton.mp h2, hrow] at he
    exact absurd he (hfno r1 h1)
  · rw [List.mem_singleton.mp h1, hrow] at he
    exact absurd he.symm (hfno r2 h2)
  · rw [List.mem_singleton.mp h1, List.mem_singleton.mp h2]

theorem save_step (root hname : String) (t : IPRow) (cur : DB)
    (hmem : t ∈ cur.ips)
    (hpkinj : ∀ r1 ∈ cur.ips, ∀ r2 ∈ cur.ips, r1.pk = r2.pk → r1 = r2)
    (hipinj : ∀ r1 ∈ cur.ips, ∀ r2 ∈ cur.ips, r1.ip = r2.ip → r1 = r2)
    (hhost : getHost cur t.host = some { pk := t.host, name := hname })
    (hroot : cur.domains.contains root = true)
    (hauto : t.auto_dns = true) :
    ∃ npk, IPAddress_save root t.obj cur = .ok
      { hosts := cur.hosts,
        ips := cur.ips.filter (fun x => !(some x.pk == some t.pk)) ++
          [{ pk := npk, host := t.host, interface := t.interface, ip := t.ip,
             auto_dns := true, primary := t.primary }],
        domains := cur.domains,
        records := addRecs root hname t cur.domains (delRecs root hname t cur.records) } ∧
      ∀ x ∈ cur.ips, x.pk ≠ t.pk → x.pk < npk := by
  have hgetIp : getIp cur t.pk = some t := find?_pk_of_mem hpkinj hmem
  have hrem := remove_dns_deletes_exactly root t.obj cur t.pk t
    { pk := t.host, name := hname } rfl hgetIp hhost
  have hdel : IPAddress_delete root t.obj cur = .ok
      { hosts := cur.hosts,
        ips := cur.ips.filter (fun x => !(some x.pk == some t.pk)),
        domains := cur.domains,
        records := delRecs root hname t cur.records } := by
    unfold IPAddress_delete remote_dns_hook
    rw [if_pos (show t.obj.auto_dns = true from hauto), hrem]
    rfl
  have hh2 : getHost
      { hosts := cur.hosts,
        ips := cur.ips.filter (fun x => !(some x.pk == some t.pk)),
        domains := cur.domains,
        records := delRecs root hname t cur.records } t.host
      = some { pk := t.host, name := hname } := hhost
  have hres : ∀ z, resolvePtrZone
      { hosts := cur.hosts,
        ips := cur.ips.filter (fun x => !(some x.pk == some t.pk)),
        domains := cur.domains,
        records := delRecs root hname t cur.records } z
      = resolveZoneDoms cur.domains z := fun z => rfl
  have hadd : IPAddress_add_dns root
      { pk := none, host := t.host, interface := t.interface, ip := t.ip,
        auto_dns := true, primary := t.primary }
      { hosts := cur.hosts,
        ips := cur.ips.filter (fun x => !(some x.pk == some t.pk)),
        domains := cur.domains,
        records := delRecs root hname t cur.records } = .ok
      { hosts := cur.hosts,
        ips := cur.ips.filter (fun x => !(some x.pk == some t.pk)),
        domains := cur.domains,
        records := addRecs root hname t cur.domains (delRecs root hname t cur.records) } := by
    simp only [IPAddress_add_dns, addDnsOldNameRemoval, hh2, hroot, if_true,
      addRecs, cnameStep, ptrStep, fwdStep, hres]
  have hdup := filtered_dup_false t cur hmem hipinj
  refine ⟨nextPk
      { hosts := cur.hosts,
        ips := cur.ips.filter (fun x => !(some x.pk == some t.pk)),
        domains := cur.domains,
        records := addRecs root hname t cur.domains (delRecs root hname t cur.records) },
    ?_, ?_⟩
  · unfold IPAddress_save
    simp only [IPRow.obj, hauto] at hdel ⊢
    simp only [hdel, if_true, hadd, hdup, Bool.false_eq_true, if_false]
  · intro x hx hne
    have hxf : x ∈ cur.ips.filter (fun y => !(some y.pk == some t.pk)) :=
      List.mem_filter.mpr ⟨hx, by simp [hne]⟩
    exact nextPk_bound
      { hosts := cur.hosts,
        ips := cur.ips.filter (fun y => !(some y.pk == some t.pk)),
        domains := cur.domains,
        records := addRecs root hname t cur.domains (delRecs root hname t cur.records) }
      x hxf

theorem save_step_noauto (root : String) (t : IPRow) (cur : DB)
    (hmem : t ∈ cur.ips)
    (hipinj : ∀ r1 ∈ cur.ips, ∀ r2 ∈ cur.ips, r1.ip = r2.ip → r1 = r2)
    (hauto : t.auto_dns = false) :
    ∃ npk, IPAddress_save root t.obj cur = .ok
      { hosts := cur.hosts,
        ips := cur.ips.filter (fun x => !(some x.pk == some t.pk)) ++
          [{ pk := npk, host := t.host, interface := t.interface, ip := t.ip,
             auto_dns := false, primary := t.primary }],
        domains := cur.domains,
        records := cur.records } ∧
      ∀ x ∈ cur.ips, x.pk ≠ t.pk → x.pk < npk := by
  have hdel : IPAddress_delete root t.obj cur = .ok
      { hosts := cur.hosts,
        ips := cur.ips.filter (fun x => !(some x.pk == some t.pk)),
        domains := cur.domains,
        records := cur.records } := by
    unfold IPAddress_delete remote_dns_hook
    rw [if_neg (show ¬t.obj.auto_dns = true by rw [show t.obj.auto_dns = t.auto_dns from rfl, hauto]; exact Bool.noConfusion)]
    rfl
  have hdup := filtered_dup_false t cur hmem hipinj
  refine ⟨nextPk
      { hosts := cur.hosts,
        ips := cur.ips.filter (fun x => !(some x.pk == some t.pk)),
        domains := cur.domains,
        records := cur.records },
    ?_, ?_⟩
  · unfold IPAddress_save
    simp only [IPRow.obj, hauto] at hdel ⊢
    simp only [hdel, Bool.false_eq_true, if_false, hdup]
  · intro x hx hne
    have hxf : x ∈ cur.ips.filter (fun y => !(some y.pk == some t.pk)) :=
      List.mem_filter.mpr ⟨hx, by simp [hne]⟩
    exact nextPk_bound
      { hosts := cur.hosts,
        ips := cur.ips.filter (fun y => !(some y.pk == some t.pk)),
        domains := cur.domains,
        records := cur.records }
      x hxf

theorem fwdType_ne_cname (ip : IPAddr) : fwdType ip ≠ "CNAME" := by
  cases ip with
  | v4 a b c d => exact (by decide : ¬("A" : String) = "CNAME")
  | v6 nibs => exact (by decide : ¬("AAAA" : String) = "CNAME")

theorem removePhase_spec (root hname : String) (hpk : Nat) :
    ∀ (rows : List IPRow) (cur : DB),
    (∀ t ∈ rows, t ∈ cur.ips ∧ t.host = hpk) →
    getHost cur hpk = some { pk := hpk, name := hname } →
    (∀ r1 ∈ cur.ips, ∀ r2 ∈ cur.ips, r1.pk = r2.pk → r1 = r2) →
    ∃ d1, hostRenameRemovePhase root rows cur = .ok d1 ∧
      d1.hosts = cur.hosts ∧ d1.ips = cur.ips ∧ d1.domains = cur.domains ∧
      (∀ r ∈ d1.records, r ∈ cur.records) ∧
      (∀ t ∈ rows, t.auto_dns = true → ∀ r ∈ d1.records, delPred root hname t r = false) := by
  intro rows
  induction rows with
  | nil =>
    intro cur _ _ _
    exact ⟨cur, rfl, rfl, rfl, rfl, fun r hr => hr,
      fun t ht => absurd ht (List.not_mem_nil t)⟩
  | cons t rest ih =>
    intro cur hrows hhost hpkinj
    have htmem := (hrows t (List.mem_cons_self t rest)).1
    have hthost := (hrows t (List.mem_cons_self t rest)).2
    rcases hta : t.auto_dns with _ | _
    · have hstep : hostRenameRemovePhase root (t :: rest) cur
          = hostRenameRemovePhase root rest cur := by
        show (if t.auto_dns then
            match IPAddress_remove_dns root t.obj cur with
            | .error e => .error e
            | .ok d => hostRenameRemovePhase root rest d
          else hostRenameRemovePhase root rest cur) = hostRenameRemovePhase root rest cur
        rw [hta]
        rfl
      rcases ih cur (fun x hx => hrows x (List.mem_cons_of_mem t hx)) hhost hpkinj with
        ⟨d1, he, hh, hi, hd, hsub, hdelp⟩
      refine ⟨d1, by rw [hstep]; exact he, hh, hi, hd, hsub, ?_⟩
      intro x hx hxa
      rcases List.mem_cons.mp hx with rfl | hx2
      · rw [hta] at hxa
        exact Bool.noConfusion hxa
      · exact hdelp x hx2 hxa
    · have hgetIp : getIp cur t.pk = some t := find?_pk_of_mem hpkinj htmem
      have hh3 : getHost cur t.host = some { pk := t.host, name := hname } := by
        rw [hthost]
        exact hhost
      have hrem := remove_dns_deletes_exactly root t.obj cur t.pk t
        { pk := t.host, name := hname } rfl hgetIp hh3
      have hstep : hostRenameRemovePhase root (t :: rest) cur
          = hostRenameRemovePhase root rest
            { cur with records := delRecs root hname t cur.records } := by
        show (if t.obj.auto_dns then
            match IPAddress_remove_dns root t.obj cur with
            | .error e => .error e
            | .ok d => hostRenameRemovePhase root rest d
          else hostRenameRemovePhase root rest cur) = _
        rw [show t.obj.auto_dns = t.auto_dns from rfl, hta, if_pos rfl, hrem]
        rfl
      have hrowsub : ∀ x ∈ rest,
          x ∈ ({ cur with records := delRecs root hname t cur.records } : DB).ips ∧
            x.host = hpk :=
        fun x hx => hrows x (List.mem_cons_of_mem t hx)
      rcases ih { cur with records := delRecs root hname t cur.records }
          hrowsub hhost hpkinj with ⟨d1, he, hh, hi, hd, hsub, hdelp⟩
      refine ⟨d1, by rw [hstep]; exact he, hh, hi, hd, ?_, ?_⟩
      · intro r hr
        exact (List.mem_filter.mp (hsub r hr)).1
      · intro x hx hxa
        rcases List.mem_cons.mp hx with rfl | hx2
        · intro r hr
          have hkeep := (List.mem_filter.mp (hsub r hr)).2
          cases hdp : delPred root hname x r with
          | false => rfl
          | true =>
            rw [hdp] at hkeep
            exact Bool.noConfusion hkeep
        · exact hdelp x hx2 hxa

theorem delPred_safe_fwdrec (root hname : String) (t : IPRow) {dom nm ty ct : String}
    (hty : ty = "A" ∨ ty = "AAAA")
    (hcond : slower nm ≠ slower (ipFqdn root hname t.interface) ∨ ct ≠ t.ip.str) :
    delPred root hname t
      { domain := dom, name := nm, type := ty, content := ct, auth := true } = false := by
  have htyc : (ty == "CNAME") = false := by rcases hty with rfl | rfl <;> rfl
  have htyp : (ty == "PTR") = false := by rcases hty with rfl | rfl <;> rfl
  unfold delPred fwdDelPred cnameDelPred ptrDelPred
  rcases hcond with hc | hc
  · simp [beq_eq_false_iff_ne.mpr hc, htyc, htyp]
  · simp [beq_eq_false_iff_ne.mpr hc, htyc, htyp]

theorem delPred_safe_ptrrec (root hname : String) (t : IPRow) {dom nm ct : String}
    (hnm : nm ≠ IPAddress_generate_ptr t.ip false) :
    delPred root hname t
      { domain := dom, name := nm, type := "PTR", content := ct, auth := true } = false := by
  have e1 : (("PTR" : String) == "A") = false := rfl
  have e2 : (("PTR" : String) == "AAAA") = false := rfl
  have e3 : (("PTR" : String) == "CNAME") = false := rfl
  unfold delPred fwdDelPred cnameDelPred ptrDelPred
  simp [beq_eq_false_iff_ne.mpr hnm, e1, e2, e3]

theorem hasRec_addRecs_pres (root hname : String) (t : IPRow) (doms : List String)
    {dom nm ty ct : String} {recs : List Record}
    (hptr : ty ≠ "PTR" ∨ nm ≠ IPAddress_generate_ptr t.ip false)
    (hcn : ty ≠ "CNAME" ∨ nm ≠ slower (hostFqdn root hname))
    (h : hasRec dom nm ty ct recs = true) :
    hasRec dom nm ty ct (addRecs root hname t doms recs) = true := by
  unfold addRecs
  refine hasRec_cnameStep hcn (hasRec_ptrStep hptr ?_)
  unfold fwdStep
  exact hasRec_getOrCreateFwd h

theorem establish_fwd (root hname : String) (t : IPRow) (doms : List String)
    (recs : List Record) :
    hasRec root (slower (ipFqdn root hname t.interface)) (fwdType t.ip) t.ip.str
      (addRecs root hname t doms recs) = true := by
  unfold addRecs
  refine hasRec_cnameStep (Or.inl (fwdType_ne_cname t.ip))
    (hasRec_ptrStep (Or.inl (fwdType_ne_ptr t.ip)) ?_)
  unfold fwdStep
  exact exists_getOrCreateFwd _ _ _ _ _

theorem establish_ptr (root hname : String) (t : IPRow) (doms : List String)
    (recs : List Record) (z : String)
    (hz : resolveZoneDoms doms (IPAddress_generate_ptr t.ip true) = some z) :
    hasRec z (IPAddress_generate_ptr t.ip false) "PTR"
      (slower (ipFqdn root hname t.interface)) (addRecs root hname t doms recs) = true := by
  unfold addRecs
  refine hasRec_cnameStep (Or.inl (by decide)) ?_
  unfold ptrStep
  rw [hz]
  exact exists_getOrCreatePatch _ _ _ _ _

theorem establish_cname (root hname : String) (t : IPRow) (doms : List String)
    (recs : List Record)
    (hpi : (t.primary && (ifaceVal t.interface).isSome) = true) :
    hasRec root (slower (hostFqdn root hname)) "CNAME"
      (slower (ipFqdn root hname t.interface)) (addRecs root hname t doms recs) = true := by
  unfold addRecs cnameStep
  rw [if_pos hpi]
  exact exists_getOrCreatePatch _ _ _ _ _

theorem cnameOk_step (root hname : String) (all : List IPRow) (k : IPRow)
    (doms : List String) {recs : List Record}
    (hk_all : k ∈ all) (hk_auto : k.auto_dns = true)
    (hcn : cnameOk root hname all recs) :
    cnameOk root hname all (addRecs root hname k doms (delRecs root hname k recs)) := by
  by_cases hkpi : (k.primary && (ifaceVal k.interface).isSome) = true
  · have hkp := ((Bool.and_eq_true _ _).mp hkpi).1
    have hki := ((Bool.and_eq_true _ _).mp hkpi).2
    exact ⟨k, hk_all, hk_auto, hkp, hki,
      establish_cname root hname k doms (delRecs root hname k recs) hkpi⟩
  · obtain ⟨w, hwm, hwa, hwp, hwi, hwrec⟩ := hcn
    have e1 : (("CNAME" : String) == "A") = false := rfl
    have e2 : (("CNAME" : String) == "AAAA") = false := rfl
    have e3 : (("CNAME" : String) == "PTR") = false := rfl
    have hsafe : delPred root hname k
        { domain := root, name := slower (hostFqdn root hname), type := "CNAME",
          content := slower (ipFqdn root hname w.interface), auth := true } = false := by
      cases hkp : k.primary with
      | false =>
        unfold delPred fwdDelPred cnameDelPred ptrDelPred
        simp [hkp, e1, e2, e3]
      | true =>
        have hiff : (ifaceVal k.interface).isSome = false := by
          cases hi2 : (ifaceVal k.interface).isSome with
          | false => rfl
          | true => exact absurd (by rw [hkp, hi2]; rfl) hkpi
        have hfqk : ipFqdn root hname k.interface = hostFqdn root hname := by
          unfold ipFqdn
          cases hiv : ifaceVal k.interface with
          | none => rfl
          | some s =>
            rw [hiv] at hiff
            simp at hiff
        have hctne : (slower (slower (ipFqdn root hname w.interface))
            == slower (ipFqdn root hname k.interface)) = false := by
          rw [slower_idem, hfqk]
          exact beq_eq_false_iff_ne.mpr (ipFqdn_iface_ne_hostFqdn hwi)
        unfold delPred fwdDelPred cnameDelPred ptrDelPred
        simp [hkp, e1, e2, e3, hctne]
    refine ⟨w, hwm, hwa, hwp, hwi, ?_⟩
    unfold addRecs
    have h1 := hasRec_delRecs hsafe hwrec
    have h2 : hasRec root (slower (hostFqdn root hname)) "CNAME"
        (slower (ipFqdn root hname w.interface))
        (ptrStep root hname k doms (fwdStep root hname k (delRecs root hname k recs)))
        = true := by
      refine hasRec_ptrStep (Or.inl (by decide)) ?_
      unfold fwdStep
      exact hasRec_getOrCreateFwd h1
    unfold cnameStep
    rw [if_neg hkpi]
    exact h2

theorem savePhase_spec (root old newName : String) (rowsOld : List IPRow) (hpk : Nat)
    (all : List IPRow) (doms : List String)
    (hroot : doms.contains root = true)
    (hOSfq : ∀ t ∈ all,
      oldRefStr root old rowsOld (slower (ipFqdn root newName t.interface)) = false)
    (hOSptr : ∀ t ∈ all,
      oldRefStr root old rowsOld (IPAddress_generate_ptr t.ip false) = false)
    (hOShost : oldRefStr root old rowsOld (slower (hostFqdn root newName)) = false)
    (hfq_pair : ∀ t1 ∈ all, ∀ t2 ∈ all, t1 ≠ t2 →
        slower (ipFqdn root newName t1.interface)
          ≠ slower (ipFqdn root newName t2.interface))
    (hptr_pair : ∀ t1 ∈ all, ∀ t2 ∈ all, t1 ≠ t2 →
        IPAddress_generate_ptr t1.ip false ≠ IPAddress_generate_ptr t2.ip false) :
    ∀ (todo : List IPRow) (cur : DB),
      todo.Nodup →
      (∀ t ∈ todo, t ∈ all) →
      (∀ t ∈ todo, t ∈ cur.ips ∧ t.host = hpk) →
      getHost cur hpk = some { pk := hpk, name := newName } →
      cur.domains = doms →
      (∀ r1 ∈ cur.ips, ∀ r2 ∈ cur.ips, r1.pk = r2.pk → r1 = r2) →
      (∀ r1 ∈ cur.ips, ∀ r2 ∈ cur.ips, r1.ip = r2.ip → r1 = r2) →
      (∀ r ∈ cur.records, oldRef root old rowsOld r = false) →
      ∃ d2, hostRenameSavePhase root todo cur = .ok d2 ∧
        (∀ r ∈ d2.records, oldRef root old rowsOld r = false) ∧
        (∀ dom nm ty ct, presSafe root newName todo nm ty ct →
          hasRec dom nm ty ct cur.records = true →
          hasRec dom nm ty ct d2.records = true) ∧
        (∀ t ∈ todo, t.auto_dns = true →
          hasRec root (slower (ipFqdn root newName t.interface)) (fwdType t.ip)
            t.ip.str d2.records = true ∧
          (∀ z, resolveZoneDoms doms (IPAddress_generate_ptr t.ip true) = some z →
            hasRec z (IPAddress_generate_ptr t.ip false) "PTR"
              (slower (ipFqdn root newName t.interface)) d2.records = true)) ∧
        ((∃ t ∈ todo, t.auto_dns = true ∧ t.primary = true ∧
            (ifaceVal t.interface).isSome = true) →
          cnameOk root newName all d2.records) ∧
        (cnameOk root newName all cur.records →
          cnameOk root newName all d2.records) := by
  intro todo
  induction todo with
  | nil =>
    intro cur _ _ _ _ _ _ _ hP
    refine ⟨cur, rfl, hP, fun dom nm ty ct _ h => h, ?_, ?_, fun h => h⟩
    · intro t ht
      exact absurd ht (List.not_mem_nil t)
    · rintro ⟨t, ht, -⟩
      exact absurd ht (List.not_mem_nil t)
  | cons t rest ih =>
    intro cur hnodup hall hmem hhost hdoms hpkinj hipinj hP
    have htmem := (hmem t (List.mem_cons_self t rest)).1
    have hthost := (hmem t (List.mem_cons_self t rest)).2
    have htall := hall t (List.mem_cons_self t rest)
    have hnodup2 := (List.nodup_cons.mp hnodup).2
    have htnotin := (List.nodup_cons.mp hnodup).1
    have htne : ∀ x ∈ rest, t ≠ x := fun x hx he => htnotin (he ▸ hx)
    rcases hta : t.auto_dns with _ | _
    · rcases save_step_noauto root t cur htmem hipinj hta with ⟨npk, hsave, hbound⟩
      have hmemN : ∀ x ∈ rest,
          x ∈ (cur.ips.filter (fun y => !(some y.pk == some t.pk)) ++
            [{ pk := npk, host := t.host, interface := t.interface, ip := t.ip,
               auto_dns := false, primary := t.primary }]) ∧ x.host = hpk := by
        intro x hx
        have hxc := hmem x (List.mem_cons_of_mem t hx)
        refine ⟨List.mem_append_left _ (List.mem_filter.mpr ⟨hxc.1, ?_⟩), hxc.2⟩
        have hpkne : x.pk ≠ t.pk :=
          fun he => (htne x hx) (hpkinj t htmem x hxc.1 he.symm)
        simp [hpkne]
      rcases ih
          { hosts := cur.hosts,
            ips := cur.ips.filter (fun x => !(some x.pk == some t.pk)) ++
              [{ pk := npk, host := t.host, interface := t.interface, ip := t.ip,
                 auto_dns := false, primary := t.primary }],
            domains := cur.domains, records := cur.records }
          hnodup2 (fun x hx => hall x (List.mem_cons_of_mem t hx)) hmemN hhost hdoms
          (step_ips_pkinj hpkinj hbound _ rfl)
          (step_ips_ipinj hipinj htmem _ rfl) hP with
        ⟨d2, he2, hP2, hPres2, hEst2, hCnE2, hCnP2⟩
      have hphase : hostRenameSavePhase root (t :: rest) cur = .ok d2 := by
        show (match IPAddress_save root t.obj cur with
            | Except.error e => Except.error e
            | Except.ok d => hostRenameSavePhase root rest d) = Except.ok d2
        rw [hsave]
        exact he2
      refine ⟨d2, hphase, hP2, ?_, ?_, ?_, ?_⟩
      · intro dom nm ty ct hps hrec
        refine hPres2 dom nm ty ct ?_ hrec
        rcases hps with ⟨hty, hcond⟩ | ⟨hty, hcond⟩
        · exact Or.inl ⟨hty, fun x hx => hcond x (List.mem_cons_of_mem t hx)⟩
        · exact Or.inr ⟨hty, fun x hx => hcond x (List.mem_cons_of_mem t hx)⟩
      · intro x hx hxa
        rcases List.mem_cons.mp hx with hxeq | hx2
        · subst hxeq
          rw [hta] at hxa
          exact Bool.noConfusion hxa
        · exact hEst2 x hx2 hxa
      · rintro ⟨x, hx, hxa, hxp, hxi⟩
        rcases List.mem_cons.mp hx with hxeq | hx2
        · subst hxeq
          rw [hta] at hxa
          exact Bool.noConfusion hxa
        · exact hCnE2 ⟨x, hx2, hxa, hxp, hxi⟩
      · exact fun h => hCnP2 h
    · have hh3 : getHost cur t.host = some { pk := t.host, name := newName } := by
        rw [hthost]
        exact hhost
      have hroot2 : cur.domains.contains root = true := by
        rw [hdoms]
        exact hroot
      rcases save_step root newName t cur htmem hpkinj hipinj hh3 hroot2 hta with
        ⟨npk, hsave, hbound⟩
      have hPdel : ∀ r ∈ delRecs root newName t cur.records,
          oldRef root old rowsOld r = false :=
        fun r hr => hP r (List.mem_filter.mp hr).1
      have hPN : ∀ r ∈ addRecs root newName t cur.domains
          (delRecs root newName t cur.records), oldRef root old rowsOld r = false :=
        noOldRefs_addRecs root old newName rowsOld t cur.domains hPdel
          (hOSfq t htall) (hOSptr t htall) hOShost
      have hmemN : ∀ x ∈ rest,
          x ∈ (cur.ips.filter (fun y => !(some y.pk == some t.pk)) ++
            [{ pk := npk, host := t.host, interface := t.interface, ip := t.ip,
               auto_dns := true, primary := t.primary }]) ∧ x.host = hpk := by
        intro x hx
        have hxc := hmem x (List.mem_cons_of_mem t hx)
        refine ⟨List.mem_append_left _ (List.mem_filter.mpr ⟨hxc.1, ?_⟩), hxc.2⟩
        have hpkne : x.pk ≠ t.pk :=
          fun he => (htne x hx) (hpkinj t htmem x hxc.1 he.symm)
        simp [hpkne]
      rcases ih
          { hosts := cur.hosts,
            ips := cur.ips.filter (fun x => !(some x.pk == some t.pk)) ++
              [{ pk := npk, host := t.host, interface := t.interface, ip := t.ip,
                 auto_dns := true, primary := t.primary }],
            domains := cur.domains,
            records := addRecs root newName t cur.domains
              (delRecs root newName t cur.records) }
          hnodup2 (fun x hx => hall x (List.mem_cons_of_mem t hx)) hmemN hhost hdoms
          (step_ips_pkinj hpkinj hbound _ rfl)
          (step_ips_ipinj hipinj htmem _ rfl) hPN with
        ⟨d2, he2, hP2, hPres2, hEst2, hCnE2, hCnP2⟩
      have hphase : hostRenameSavePhase root (t :: rest) cur = .ok d2 := by
        show (match IPAddress_save root t.obj cur with
            | Except.error e => Except.error e
            | Except.ok d => hostRenameSavePhase root rest d) = Except.ok d2
        rw [hsave]
        exact he2
      refine ⟨d2, hphase, hP2, ?_, ?_, ?_, ?_⟩
      · intro dom nm ty ct hps hrec
        have hrest : presSafe root newName rest nm ty ct := by
          rcases hps with ⟨hty, hcond⟩ | ⟨hty, hcond⟩
          · exact Or.inl ⟨hty, fun x hx => hcond x (List.mem_cons_of_mem t hx)⟩
          · exact Or.inr ⟨hty, fun x hx => hcond x (List.mem_cons_of_mem t hx)⟩
        refine hPres2 dom nm ty ct hrest ?_
        rcases hps with ⟨hty, hcond⟩ | ⟨hty, hcond⟩
        · refine hasRec_addRecs_pres root newName t cur.domains (Or.inl ?_) (Or.inl ?_)
            (hasRec_delRecs (delPred_safe_fwdrec root newName t hty
              (hcond t (List.mem_cons_self t rest))) hrec)
          · rcases hty with rfl | rfl <;> decide
          · rcases hty with rfl | rfl <;> decide
        · subst hty
          exact hasRec_addRecs_pres root newName t cur.domains
            (Or.inr (hcond t (List.mem_cons_self t rest))) (Or.inl (by decide))
            (hasRec_delRecs (delPred_safe_ptrrec root newName t
              (hcond t (List.mem_cons_self t rest))) hrec)
      · intro x hx hxa
        rcases List.mem_cons.mp hx with hxeq | hx2
        · subst hxeq
          constructor
          · refine hPres2 root (slower (ipFqdn root newName x.interface)) (fwdType x.ip)
              x.ip.str ?_ ?_
            · refine Or.inl ⟨fwdType_cases x.ip, fun t2 ht2 => Or.inl ?_⟩
              rw [slower_idem]
              exact hfq_pair x htall t2 (hall t2 (List.mem_cons_of_mem x ht2))
                (htne t2 ht2)
            · exact establish_fwd root newName x cur.domains
                (delRecs root newName x cur.records)
          · intro z hz
            refine hPres2 z (IPAddress_generate_ptr x.ip false) "PTR"
              (slower (ipFqdn root newName x.interface)) ?_ ?_
            · exact Or.inr ⟨rfl, fun t2 ht2 =>
                hptr_pair x htall t2 (hall t2 (List.mem_cons_of_mem x ht2))
                  (htne t2 ht2)⟩
            · refine establish_ptr root newName x cur.domains
                (delRecs root newName x cur.records) z ?_
              rw [hdoms]
              exact hz
        · exact hEst2 x hx2 hxa
      · rintro ⟨x, hx, hxa, hxp, hxi⟩
        rcases List.mem_cons.mp hx with hxeq | hx2
        · subst hxeq
          refine hCnP2 ⟨x, htall, hta, hxp, hxi, ?_⟩
          exact establish_cname root newName x cur.domains
            (delRecs root newName x cur.records) (by rw [hxp, hxi]; rfl)
        · exact hCnE2 ⟨x, hx2, hxa, hxp, hxi⟩
      · intro hcn
        exact hCnP2 (cnameOk_step root newName all t cur.domains htall hta hcn)

/-- C1: renaming a host — `Host.save` on an existing `pk` whose stored
name `old` is non-empty and differs from the new name — first removes,
for every owned `auto_dns` assignment, its old-name DNS records,
persists the new name, then re-runs the full create path for every
owned assignment. Afterwards no record references the old name's
domains (the old host FQDN or an owned assignment FQDN under it, by
name, or by content for the PTR/CNAME types); for every owned
`auto_dns` assignment the forward record at its new FQDN exists and its
PTR exists whenever its reverse zone resolves; and when some owned
assignment is primary with an interface, a CNAME at the new host FQDN
pointing at such an assignment's new FQDN exists. Side conditions:
store integrity (unique pks and addresses, new name not taken, root
zone present), pairwise-distinct new FQDNs and reverse names among the
owned assignments, the new-name forms not colliding with old-name
forms, and every old-name-referencing record being a removal target of
some owned `auto_dns` assignment. -/
theorem host_rename_resyncs_dns (root old new : String) (hpk : Nat) (db : DB)
    (rows : List IPRow) (hrows : rows = db.ips.filter (fun r => r.host == hpk))
    (hhost : getHost db hpk = some { pk := hpk, name := old })
    (hold_ne : old ≠ "") (hdiff : old ≠ new)
    (huniq : ∀ hrow ∈ db.hosts, hrow.name = new → hrow.pk = hpk)
    (hroot : db.domains.contains root = true)
    (hnodup : db.ips.Nodup)
    (hpkinj : ∀ r1 ∈ db.ips, ∀ r2 ∈ db.ips, r1.pk = r2.pk → r1 = r2)
    (hipinj : ∀ r1 ∈ db.ips, ∀ r2 ∈ db.ips, r1.ip = r2.ip → r1 = r2)
    (hfq_pair : ∀ t1 ∈ rows, ∀ t2 ∈ rows, t1 ≠ t2 →
        slower (ipFqdn root new t1.interface) ≠ slower (ipFqdn root new t2.interface))
    (hptr_pair : ∀ t1 ∈ rows, ∀ t2 ∈ rows, t1 ≠ t2 →
        IPAddress_generate_ptr t1.ip false ≠ IPAddress_generate_ptr t2.ip false)
    (hOSfq : ∀ t ∈ rows,
        oldRefStr root old rows (slower (ipFqdn root new t.interface)) = false)
    (hOSptr : ∀ t ∈ rows,
        oldRefStr root old rows (IPAddress_generate_ptr t.ip false) = false)
    (hOShost : oldRefStr root old rows (slower (hostFqdn root new)) = false)
    (hstore : ∀ r ∈ db.records, oldRef root old rows r = true →
        ∃ t ∈ rows, t.auto_dns = true ∧ delPred root old t r = true) :
    ∃ dbf, Host_save root { pk := some hpk, name := new } db = .ok dbf ∧
      (∀ r ∈ dbf.records, oldRef root old rows r = false) ∧
      (∀ t ∈ rows, t.auto_dns = true →
        hasRec root (slower (ipFqdn root new t.interface)) (fwdType t.ip)
          t.ip.str dbf.records = true) ∧
      (∀ t ∈ rows, t.auto_dns = true → ∀ z,
        resolveZoneDoms db.domains (IPAddress_generate_ptr t.ip true) = some z →
        hasRec z (IPAddress_generate_ptr t.ip false) "PTR"
          (slower (ipFqdn root new t.interface)) dbf.records = true) ∧
      ((∃ t ∈ rows, t.auto_dns = true ∧ t.primary = true ∧
          (ifaceVal t.interface).isSome = true) →
        cnameOk root new rows dbf.records) := by
  have hrmem : ∀ t ∈ rows, t ∈ db.ips ∧ t.host = hpk := by
    intro t ht
    rw [hrows] at ht
    have h2 := List.mem_filter.mp ht
    exact ⟨h2.1, beq_iff_eq.mp h2.2⟩
  have hrnodup : rows.Nodup := by
    rw [hrows]
    exact hnodup.filter _
  rcases removePhase_spec root old hpk rows db hrmem hhost hpkinj with
    ⟨d1, he1, h1hosts, h1ips, h1doms, h1sub, h1del⟩
  have hP1 : ∀ r ∈ d1.records, oldRef root old rows r = false := by
    intro r hr
    cases ho : oldRef root old rows r with
    | false => rfl
    | true =>
      rcases hstore r (h1sub r hr) ho with ⟨t, htr, hta, hdp⟩
      have hfalse := h1del t htr hta r hr
      rw [hdp] at hfalse
      exact Bool.noConfusion hfalse
  have hchk : d1.hosts.any (fun h => !(h.pk == hpk) && h.name == new) = false := by
    rw [h1hosts, List.any_eq_false]
    intro h hh hc
    obtain ⟨hc1, hc2⟩ := (Bool.and_eq_true _ _).mp hc
    have hpe := huniq h hh (beq_iff_eq.mp hc2)
    simp [hpe] at hc1
  have hchanged : (!(old == "") && !(old == new)) = true := by
    rw [beq_eq_false_iff_ne.mpr hold_ne, beq_eq_false_iff_ne.mpr hdiff]
    rfl
  have hhost2 : getHost
      { d1 with
        hosts := d1.hosts.map
          (fun h => if h.pk == hpk then { h with name := new } else h) } hpk
      = some { pk := hpk, name := new } := by
    show (d1.hosts.map
        (fun h => if h.pk == hpk then { h with name := new } else h)).find?
        (fun h => h.pk == hpk) = some { pk := hpk, name := new }
    rw [h1hosts]
    exact getHost_rename hhost
  have hmem2 : ∀ t ∈ rows, t ∈ ({ d1 with
      hosts := d1.hosts.map
        (fun h => if h.pk == hpk then { h with name := new } else h) } : DB).ips ∧
      t.host = hpk := by
    intro t ht
    refine ⟨?_, (hrmem t ht).2⟩
    show t ∈ d1.ips
    rw [h1ips]
    exact (hrmem t ht).1
  have hpkinj2 : ∀ r1 ∈ ({ d1 with
      hosts := d1.hosts.map
        (fun h => if h.pk == hpk then { h with name := new } else h) } : DB).ips,
      ∀ r2 ∈ ({ d1 with
        hosts := d1.hosts.map
          (fun h => if h.pk == hpk then { h with name := new } else h) } : DB).ips,
      r1.pk = r2.pk → r1 = r2 := by
    show ∀ r1 ∈ d1.ips, ∀ r2 ∈ d1.ips, r1.pk = r2.pk → r1 = r2
    rw [h1ips]
    exact hpkinj
  have hipinj2 : ∀ r1 ∈ ({ d1 with
      hosts := d1.hosts.map
        (fun h => if h.pk == hpk then { h with name := new } else h) } : DB).ips,
      ∀ r2 ∈ ({ d1 with
        hosts := d1.hosts.map
          (fun h => if h.pk == hpk then { h with name := new } else h) } : DB).ips,
      r1.ip = r2.ip → r1 = r2 := by
    show ∀ r1 ∈ d1.ips, ∀ r2 ∈ d1.ips, r1.ip = r2.ip → r1 = r2
    rw [h1ips]
    exact hipinj
  rcases savePhase_spec root old new rows hpk rows db.domains hroot hOSfq hOSptr
      hOShost hfq_pair hptr_pair rows
      { d1 with
        hosts := d1.hosts.map
          (fun h => if h.pk == hpk then { h with name := new } else h) }
      hrnodup (fun t ht => ht) hmem2 hhost2 h1doms hpkinj2 hipinj2 hP1 with
    ⟨d2, he2, hP2, hPres2, hEst2, hCnE2, hCnP2⟩
  refine ⟨d2, ?_, hP2, fun t ht hta => (hEst2 t ht hta).1,
    fun t ht hta z hz => (hEst2 t ht hta).2 z hz, hCnE2⟩
  unfold Host_save
  simp only [hhost]
  rw [← hrows]
  simp only [hchanged, if_true, he1, hchk, Bool.false_eq_true, if_false]
  have hips2 : ({ d1 with
      hosts := d1.hosts.map
        (fun h => if h.pk == hpk then { h with name := new } else h) } : DB).ips.filter
      (fun r => r.host == hpk) = rows := by
    show d1.ips.filter (fun r => r.host == hpk) = rows
    rw [h1ips, hrows]
  rw [hips2]
  exact he2

set_option maxRecDepth 10000 in
theorem host_rename_resyncs_dns_witness :
    ∃ dbf, Host_save "example.com" { pk := some 1, name := "beta" }
        (rename2Db "example.com" "alpha") = .ok dbf ∧
      (∀ r ∈ dbf.records, oldRef "example.com" "alpha"
        ((rename2Db "example.com" "alpha").ips.filter (fun r => r.host == 1))
        r = false) ∧
      (∀ t ∈ (rename2Db "example.com" "alpha").ips.filter (fun r => r.host == 1),
        t.auto_dns = true →
        hasRec "example.com" (slower (ipFqdn "example.com" "beta" t.interface))
          (fwdType t.ip) t.ip.str dbf.records = true) ∧
      (∀ t ∈ (rename2Db "example.com" "alpha").ips.filter (fun r => r.host == 1),
        t.auto_dns = true → ∀ z,
        resolveZoneDoms (rename2Db "example.com" "alpha").domains
          (IPAddress_generate_ptr t.ip true) = some z →
        hasRec z (IPAddress_generate_ptr t.ip false) "PTR"
          (slower (ipFqdn "example.com" "beta" t.interface)) dbf.records = true) ∧
      ((∃ t ∈ (rename2Db "example.com" "alpha").ips.filter (fun r => r.host == 1),
          t.auto_dns = true ∧ t.primary = true ∧
            (ifaceVal t.interface).isSome = true) →
        cnameOk "example.com" "beta"
          ((rename2Db "example.com" "alpha").ips.filter (fun r => r.host == 1))
          dbf.records) :=
  host_rename_resyncs_dns "example.com" "alpha" "beta" 1
    (rename2Db "example.com" "alpha")
    ((rename2Db "example.com" "alpha").ips.filter (fun r => r.host == 1)) rfl
    rfl (by decide) (by decide) (by decide) (by decide) (by decide) (by decide)
    (by decide) (by decide) (by decide) (by decide) (by decide) (by decide)
    (by decide)

theorem any_filter_not (p : Record → Bool) (l : List Record) :
    (l.filter (fun r => !(p r))).any p = false := by
  rw [List.any_filter, List.any_eq_false]
  intro x _
  cases hx : p x <;> simp [hx]

theorem any_filter_false {p q : Record → Bool} {l : List Record}
    (h : l.any p = false) : (l.filter q).any p = false := by
  rw [List.any_filter, List.any_eq_false]
  rw [List.any_eq_false] at h
  intro x hx hc
  simp only [Bool.and_eq_true] at hc
  exact h x hx hc.2

theorem any_append_false {p : Record → Bool} {l1 l2 : List Record}
    (h1 : l1.any p = false) (h2 : l2.any p = false) : (l1 ++ l2).any p = false := by
  simp [List.any_append, h1, h2]

theorem fwdDelPred_getOrCreatePatch_false {fq ipstr dom nm ty ct : String}
    {l : List Record} (hty : ty = "PTR" ∨ ty = "CNAME")
    (h : l.any (fwdDelPred fq ipstr) = false) :
    (getOrCreatePatch dom nm ty ct l).any (fwdDelPred fq ipstr) = false := by
  rw [List.any_eq_false] at h ⊢
  intro x hx hc
  rcases mem_getOrCreatePatch hx with hm | hm
  · exact h x hm hc
  · have hfd : fwdDelPred fq ipstr x = false := by
      unfold fwdDelPred
      rcases hty with h3 | h3 <;> rw [hm, h3] <;> simp
    rw [hfd] at hc
    exact Bool.noConfusion hc

theorem fwdDelPred_getOrCreateFwd_false {fq ipstr dom nm ty ct : String}
    {l : List Record} (h : l.any (fwdDelPred fq ipstr) = false)
    (hrec : fwdDelPred fq ipstr
      { domain := dom, name := nm, type := ty, content := ct, auth := true } = false) :
    (getOrCreateFwd dom nm ty ct l).any (fwdDelPred fq ipstr) = false := by
  unfold getOrCreateFwd
  split
  · exact h
  · exact any_append_false h (by simp [hrec])

theorem delete_fields (root : String) (self : IPObj) (db db2 : DB)
    (h : IPAddress_delete root self db = .ok db2) :
    db2.hosts = db.hosts ∧ db2.domains = db.domains := by
  unfold IPAddress_delete remote_dns_hook at h
  by_cases hauto : self.auto_dns = true
  · rw [if_pos hauto] at h
    rcases hrem : IPAddress_remove_dns root self db with e | d
    · rw [hrem] at h
      exact Except.noConfusion h
    · rw [hrem] at h
      injection h with h2
      subst h2
      have := remove_dns_fields root self db d hrem
      exact ⟨this.2.1, this.2.2⟩
  · rw [if_neg hauto] at h
    injection h with h2
    subst h2
    exact ⟨rfl, rfl⟩

theorem remove_dns_records_any_false (root : String) (self : IPObj) (db db2 : DB)
    (q : Record → Bool) (h : IPAddress_remove_dns root self db = .ok db2)
    (hq : db.records.any q = false) : db2.records.any q = false := by
  unfold IPAddress_remove_dns at h
  split at h
  · injection h with h2
    subst h2
    exact hq
  · split at h
    · exact Except.noConfusion h
    · split at h
      · exact Except.noConfusion h
      · injection h with h2
        subst h2
        apply any_filter_false
        split
        · exact any_filter_false (any_filter_false hq)
        · exact any_filter_false hq

theorem delete_records_any_false (root : String) (self : IPObj) (db db2 : DB)
    (q : Record → Bool) (h : IPAddress_delete root self db = .ok db2)
    (hq : db.records.any q = false) : db2.records.any q = false := by
  unfold IPAddress_delete remote_dns_hook at h
  by_cases hauto : self.auto_dns = true
  · rw [if_pos hauto] at h
    rcases hrem : IPAddress_remove_dns root self db with e | d
    · rw [hrem] at h
      exact Except.noConfusion h
    · rw [hrem] at h
      injection h with h2
      subst h2
      exact remove_dns_records_any_false root self db d q hrem hq
  · rw [if_neg hauto] at h
    injection h with h2
    subst h2
    exact hq

theorem delete_stale_false (root : String) (self : IPObj) (db db2 : DB)
    (p : Nat) (orig : IPRow) (oh : HostRow)
    (hpk : self.pk = some p) (horig : getIp db p = some orig)
    (hoh : getHost db orig.host = some oh) (hauto : self.auto_dns = true)
    (h : IPAddress_delete root self db = .ok db2) :
    db2.records.any (fwdDelPred (ipFqdn root oh.name orig.interface) orig.ip.str) = false := by
  unfold IPAddress_delete remote_dns_hook at h
  rw [if_pos hauto] at h
  rcases hrem : IPAddress_remove_dns root self db with e | d
  · rw [hrem] at h
    exact Except.noConfusion h
  · rw [hrem] at h
    injection h with h2
    subst h2
    show d.records.any _ = false
    unfold IPAddress_remove_dns at hrem
    rw [hpk] at hrem
    simp only [horig, hoh] at hrem
    injection hrem with h3
    subst h3
    apply any_filter_false
    split
    · exact any_filter_false (any_filter_not _ _)
    · exact any_filter_not _ _

theorem saveRecordTrace_no_stale (root : String) (self : IPObj) (db : DB)
    (p : Nat) (orig : IPRow) (oh h : HostRow)
    (hpk : self.pk = some p) (horig : getIp db p = some orig)
    (hoh : getHost db orig.host = some oh) (hh : getHost db self.host = some h)
    (hauto : self.auto_dns = true)
    (hne : slower (ipFqdn root oh.name orig.interface)
        ≠ slower (ipFqdn root h.name self.interface) ∨ orig.ip.str ≠ self.ip.str)
    (hnew0 : db.records.any
      (fwdDelPred (ipFqdn root h.name self.interface) self.ip.str) = false) :
    ∀ rs ∈ saveRecordTrace root self db,
      ¬(rs.any (fwdDelPred (ipFqdn root oh.name orig.interface) orig.ip.str) = true ∧
        rs.any (fwdDelPred (ipFqdn root h.name self.interface) self.ip.str) = true) := by
  intro rs hrs
  rcases hdelE : IPAddress_delete root self db with e | db1
  · simp only [saveRecordTrace, hdelE, List.mem_singleton] at hrs
    subst hrs
    rintro ⟨-, hB⟩
    rw [hnew0] at hB
    exact Bool.noConfusion hB
  · have hh1 : getHost db1 self.host = some h := by
      have hf := (delete_fields root self db db1 hdelE).1
      unfold getHost at hh ⊢
      rw [hf]
      exact hh
    have hst1 : db1.records.any
        (fwdDelPred (ipFqdn root oh.name orig.interface) orig.ip.str) = false :=
      delete_stale_false root self db db1 p orig oh hpk horig hoh hauto hdelE
    have hNR : fwdDelPred (ipFqdn root oh.name orig.interface) orig.ip.str
        { domain := root, name := slower (ipFqdn root h.name self.interface),
          type := fwdType self.ip, content := self.ip.str, auth := true } = false := by
      rcases hne with hne | hne
      · simp [fwdDelPred, slower_idem, beq_eq_false_iff_ne.mpr (Ne.symm hne)]
      · simp [fwdDelPred, beq_eq_false_iff_ne.mpr (Ne.symm hne)]
    have hst2 : (getOrCreateFwd root (slower (ipFqdn root h.name self.interface))
        (fwdType self.ip) self.ip.str db1.records).any
        (fwdDelPred (ipFqdn root oh.name orig.interface) orig.ip.str) = false :=
      fwdDelPred_getOrCreateFwd_false hst1 hNR
    simp only [saveRecordTrace, hdelE, hauto, Bool.not_true, Bool.false_eq_true,
      if_false, hh1] at hrs
    rcases hcr : db1.domains.contains root with _ | _
    · rw [hcr] at hrs
      simp only [Bool.false_eq_true, if_false, List.mem_cons, List.not_mem_nil,
        or_false] at hrs
      rcases hrs with rfl | rfl
      · rintro ⟨-, hB⟩
        rw [hnew0] at hB
        exact Bool.noConfusion hB
      · rintro ⟨hA, -⟩
        rw [hst1] at hA
        exact Bool.noConfusion hA
    · rw [hcr] at hrs
      simp only [if_true, List.mem_cons, List.not_mem_nil, or_false] at hrs
      have hst3 : ∀ rs3 : List Record,
          (rs3 = match resolvePtrZone db1 (IPAddress_generate_ptr self.ip true) with
            | some z => getOrCreatePatch z (IPAddress_generate_ptr self.ip false) "PTR"
                (slower (ipFqdn root h.name self.interface))
                (getOrCreateFwd root (slower (ipFqdn root h.name self.interface))
                  (fwdType self.ip) self.ip.str db1.records)
            | none => getOrCreateFwd root (slower (ipFqdn root h.name self.interface))
                (fwdType self.ip) self.ip.str db1.records) →
          rs3.any (fwdDelPred (ipFqdn root oh.name orig.interface) orig.ip.str) = false := by
        intro rs3 hrs3
        rcases hres : resolvePtrZone db1 (IPAddress_generate_ptr self.ip true) with _ | z <;>
          rw [hres] at hrs3 <;> subst hrs3
        · exact hst2
        · exact fwdDelPred_getOrCreatePatch_false (Or.inl rfl) hst2
      rcases hrs with rfl | rfl | rfl | rfl | rfl
      · rintro ⟨-, hB⟩
        rw [hnew0] at hB
        exact Bool.noConfusion hB
      · rintro ⟨hA, -⟩
        rw [hst1] at hA
        exact Bool.noConfusion hA
      · rintro ⟨hA, -⟩
        rw [hst2] at hA
        exact Bool.noConfusion hA
      · rintro ⟨hA, -⟩
        rw [hst3 _ rfl] at hA
        exact Bool.noConfusion hA
      · rintro ⟨hA, -⟩
        rcases hprim : (self.primary && (ifaceVal self.interface).isSome) with _ | _
        · rw [hprim] at hA
          simp only [Bool.false_eq_true, if_false] at hA
          rw [hst3 _ rfl] at hA
          exact Bool.noConfusion hA
        · rw [hprim] at hA
          simp only [if_true] at hA
          rw [fwdDelPred_getOrCreatePatch_false (Or.inr rfl) (hst3 _ rfl)] at hA
          exact Bool.noConfusion hA

theorem saveRecordTrace_last (root : String) (self : IPObj) (db dbf : DB) (p : Nat)
    (hpk : self.pk = some p) (hauto : self.auto_dns = true)
    (hsave : IPAddress_save root self db = .ok dbf) :
    (saveRecordTrace root self db).getLast? = some dbf.records := by
  unfold IPAddress_save at hsave
  simp only [hpk] at hsave
  rcases hdelE : IPAddress_delete root self db with e | db1
  · simp only [hdelE] at hsave
    exact Except.noConfusion hsave
  · simp only [hdelE] at hsave
    simp only [hauto, if_true] at hsave
    rcases hadd : IPAddress_add_dns root
        { pk := none, host := self.host, interface := self.interface, ip := self.ip,
          auto_dns := true, primary := self.primary } db1 with e | db2
    · simp only [hadd] at hsave
      exact Except.noConfusion hsave
    · simp only [hadd] at hsave
      split at hsave
      · exact Except.noConfusion hsave
      · injection hsave with h2
        subst h2
        unfold IPAddress_add_dns at hadd
        dsimp only at hadd
        rcases hgh : getHost db1 self.host with _ | hST
        · rw [hgh] at hadd
          exact Except.noConfusion hadd
        · rw [hgh] at hadd
          simp only [addDnsOldNameRemoval] at hadd
          rcases hcr : db1.domains.contains root with _ | _
          · rw [hcr] at hadd
            simp only [Bool.false_eq_true, if_false] at hadd
            exact Except.noConfusion hadd
          · rw [hcr] at hadd
            simp only [if_true] at hadd
            injection hadd with h3
            subst h3
            simp only [saveRecordTrace, hdelE, hauto, Bool.not_true, Bool.false_eq_true,
              if_false, hgh, hcr, if_true]
            rfl

/-- C6: for an update of a stored assignment (`IPAddress.save` with an
existing pk) the stale forward record derived from the previously
stored fields is deleted strictly before any new record is created: at
no intermediate state of the operation (`saveRecordTrace`) do the stale
and the new forward record coexist, and the trace's final state is the
committed record store. For a host rename, phase one empties the
old-name records before the new name is persisted, and the re-save
trace never holds the old-name forward record either. -/
theorem dns_update_orders_removal_before_creation :
    (∀ (root : String) (self : IPObj) (db : DB) (p : Nat) (orig : IPRow) (oh h : HostRow),
      self.pk = some p → getIp db p = some orig → getHost db orig.host = some oh →
      getHost db self.host = some h → self.auto_dns = true →
      (slower (ipFqdn root oh.name orig.interface)
          ≠ slower (ipFqdn root h.name self.interface) ∨ orig.ip.str ≠ self.ip.str) →
      db.records.any (fwdDelPred (ipFqdn root h.name self.interface) self.ip.str) = false →
      ((∀ rs ∈ saveRecordTrace root self db,
          ¬(rs.any (fwdDelPred (ipFqdn root oh.name orig.interface) orig.ip.str) = true ∧
            rs.any (fwdDelPred (ipFqdn root h.name self.interface) self.ip.str) = true)) ∧
        (∀ dbf, IPAddress_save root self db = .ok dbf →
          (saveRecordTrace root self db).getLast? = some dbf.records))) ∧
    (∀ root old new : String, slower root = root → slower old = old → slower new = new →
      old ≠ new → root ≠ "0.0.10.in-addr.arpa" →
      hostRenameRemovePhase root
          ((renameDb root old).ips.filter (fun r => r.host == 1)) (renameDb root old)
        = .ok { renameDb root old with records := [] } ∧
      (∀ rs ∈ (renameDb root old).records ::
          saveRecordTrace root (IPRow.obj renameRow)
            { renameDb root old with hosts := [{ pk := 1, name := new }], records := [] },
        ¬(rs.any (fwdDelPred (old ++ "." ++ root) "10.0.0.5") = true ∧
          rs.any (fwdDelPred (new ++ "." ++ root) "10.0.0.5") = true))) := by
  constructor
  · intro root self db p orig oh h hpk horig hoh hh hauto hne hnew0
    exact ⟨saveRecordTrace_no_stale root self db p orig oh h hpk horig hoh hh hauto hne hnew0,
      fun dbf hsave => saveRecordTrace_last root self db dbf p hpk hauto hsave⟩
  · intro root old new hr ho hn hdiff hzr
    have hbz : (("0.0.10.in-addr.arpa" : String) == root) = false :=
      beq_eq_false_iff_ne.mpr (fun he => hzr he.symm)
    have hdot : slower "." = "." := rfl
    have hslOld : slower (old ++ "." ++ root) = old ++ "." ++ root := by
      rw [slower_append, slower_append, ho, hr, hdot]
    have hslNew : slower (new ++ "." ++ root) = new ++ "." ++ root := by
      rw [slower_append, slower_append, hn, hr, hdot]
    have hfqne : ((new ++ "." ++ root) == (old ++ "." ++ root)) = false :=
      beq_eq_false_iff_ne.mpr
        (fun he => hdiff (str_append_cancel (str_append_cancel he)).symm)
    have hfqne2 : ((old ++ "." ++ root) == (new ++ "." ++ root)) = false :=
      beq_eq_false_iff_ne.mpr
        (fun he => hdiff (str_append_cancel (str_append_cancel he)))
    have hptrT : IPAddress_generate_ptr (.v4 10 0 0 5) true = "0.0.10.in-addr.arpa" := rfl
    have hptrF : IPAddress_generate_ptr (.v4 10 0 0 5) false = "5.0.0.10.in-addr.arpa" := rfl
    have hstr : IPAddr.str (.v4 10 0 0 5) = "10.0.0.5" := rfl
    constructor
    · simp [hostRenameRemovePhase, renameDb, IPAddress_remove_dns, IPRow.obj, getIp,
        getHost, ipFqdn, ifaceVal, fwdDelPred, cnameDelPred, ptrDelPred, hptrF, hstr,
        hslOld, List.find?, List.filter]
    · have htr : saveRecordTrace root (IPRow.obj renameRow)
          { renameDb root old with hosts := [{ pk := 1, name := new }], records := [] } =
          [[], [],
           [{ domain := root, name := new ++ "." ++ root, type := "A",
              content := "10.0.0.5", auth := true }],
           [{ domain := root, name := new ++ "." ++ root, type := "A",
              content := "10.0.0.5", auth := true },
            { domain := "0.0.10.in-addr.arpa", name := "5.0.0.10.in-addr.arpa",
              type := "PTR", content := new ++ "." ++ root, auth := true }],
           [{ domain := root, name := new ++ "." ++ root, type := "A",
              content := "10.0.0.5", auth := true },
            { domain := "0.0.10.in-addr.arpa", name := "5.0.0.10.in-addr.arpa",
              type := "PTR", content := new ++ "." ++ root, auth := true }]] := by
        simp [saveRecordTrace, IPAddress_delete, remote_dns_hook, IPAddress_remove_dns,
          IPRow.obj, renameRow, getIp, getHost, renameDb, ipFqdn, ifaceVal, fwdDelPred, cnameDelPred,
          ptrDelPred, getOrCreateFwd, getOrCreatePatch, resolvePtrZone, fwdType,
          hptrT, hptrF, hstr, hbz, hslNew, List.find?, List.filter, List.contains,
          List.elem, List.any]
      intro rs hrs
      rw [htr] at hrs
      simp only [renameDb, List.mem_cons, List.not_mem_nil, or_false] at hrs
      rcases hrs with rfl | rfl | rfl | rfl | rfl | rfl
      · rintro ⟨-, hB⟩
        simp [fwdDelPred, hslOld, hslNew, hfqne2, List.any] at hB
      · rintro ⟨hA, -⟩
        simp [List.any] at hA
      · rintro ⟨hA, -⟩
        simp [List.any] at hA
      · rintro ⟨hA, -⟩
        simp [fwdDelPred, hslOld, hslNew, hfqne, List.any] at hA
      · rintro ⟨hA, -⟩
        simp [fwdDelPred, hslOld, hslNew, hfqne, List.any] at hA
      · rintro ⟨hA, -⟩
        simp [fwdDelPred, hslOld, hslNew, hfqne, List.any] at hA

theorem dns_update_orders_removal_before_creation_witness :
    (¬(((saveRecordTrace "example.com" updObj (renameDb "example.com" "foo")).getLastD []).any
        (fwdDelPred (ipFqdn "example.com" "foo" none) (IPAddr.v4 10 0 0 5).str) = true ∧
      ((saveRecordTrace "example.com" updObj (renameDb "example.com" "foo")).getLastD []).any
        (fwdDelPred (ipFqdn "example.com" "foo" (some "eth0")) (IPAddr.v4 10 0 0 5).str) = true)) ∧
    hostRenameRemovePhase "example.com"
        ((renameDb "example.com" "alpha").ips.filter (fun r => r.host == 1))
        (renameDb "example.com" "alpha")
      = .ok { renameDb "example.com" "alpha" with records := [] } :=
  ⟨(dns_update_orders_removal_before_creation.1 "example.com" updObj
      (renameDb "example.com" "foo") 10 renameRow
      { pk := 1, name := "foo" } { pk := 1, name := "foo" }
      rfl rfl rfl rfl rfl (Or.inl (by decide)) (by decide)).1
      ((saveRecordTrace "example.com" updObj (renameDb "example.com" "foo")).getLastD [])
      (by decide),
   (dns_update_orders_removal_before_creation.2 "example.com" "alpha" "beta"
      rfl rfl rfl (by decide) (by decide)).1⟩
